import Mathlib

/-!
Verification of the IMAP response lexer (`response_lexer.pyx`).

The source file contains two implementations of the same lexer:
the first (`Impl1`) is the table-driven version that tracks the pending
token as a pair of indices `fr`/`to` into the source buffer and yields
slices; the second (`Impl2`) is the set-membership version that
accumulates the pending token in a bytearray.  Bytes are modelled as
natural numbers, byte strings as `List Nat`, raised exceptions as an
`Except` error value.
-/

set_option maxRecDepth 16384

set_option maxHeartbeats 1600000

namespace ImapLexer

/-- A token is an immutable byte string. -/
abbrev Token := List Nat

/-- The error conditions the lexer can raise.  The first three are the
`ValueError`s raised inside `read_token_stream`; the last is the failure of
`assert_imap_protocol(src_text.endswith(b'}'))` in `LiteralHandlingIter`. -/
inductive LexError where
  | unterminatedBracket
  | unexpectedQuote
  | unterminatedQuote
  | malformedLiteralRecord
deriving DecidableEq, Repr

/-- `WHITESPACE = frozenset(b' \t\r\n')`; also the table `WS`. -/
def isWS (b : Nat) : Bool := b == 32 || b == 9 || b == 13 || b == 10

/-- `SPECIALS = frozenset(b' ()%\x22[')`. -/
def isSpecial (b : Nat) : Bool :=
  b == 32 || b == 40 || b == 41 || b == 37 || b == 34 || b == 91

/-- `NON_SPECIALS = ALL_CHARS - SPECIALS - CTRL_CHARS`; also the table `WC`. -/
def isWC (b : Nat) : Bool := b < 256 && 32 ≤ b && !(isSpecial b)

/-- Byte constants from the source. -/
def BACKSLASH : Nat := 92

def OPEN_SQUARE : Nat := 91

def CLOSE_SQUARE : Nat := 93

def DOUBLE_QUOTE : Nat := 34

/-- `src_text.find(c, start)` of Python bytes: the least index `≥ start`
holding byte `c`, or `none` (Python's `-1`). -/
def findFrom (src : List Nat) (c : Nat) (start : Nat) : Option Nat :=
  if h : start < src.length then
    if src.getD start 0 == c then some start else findFrom src c (start + 1)
  else none
termination_by src.length - start

/-- The Python slice `src[fr:to]`. -/
def byteSlice (src : List Nat) (fr toIx : Nat) : List Nat :=
  (src.drop fr).take (toIx - fr)

theorem findFrom_some {src : List Nat} {c start j : Nat}
    (h : findFrom src c start = some j) :
    start ≤ j ∧ j < src.length ∧ src.getD j 0 = c := by
  induction start using findFrom.induct src c with
  | case1 s hlt heq =>
    rw [findFrom, dif_pos hlt, if_pos heq] at h
    cases h
    exact ⟨le_refl _, hlt, by simpa using heq⟩
  | case2 s hlt hne ih =>
    rw [findFrom, dif_pos hlt, if_neg hne] at h
    have := ih h
    omega
  | case3 s hge =>
    rw [findFrom, dif_neg hge] at h
    cases h

theorem findFrom_some_min {src : List Nat} {c start j : Nat}
    (h : findFrom src c start = some j) :
    ∀ k, start ≤ k → k < j → src.getD k 0 ≠ c := by
  induction start using findFrom.induct src c with
  | case1 s hlt heq =>
    rw [findFrom, dif_pos hlt, if_pos heq] at h
    cases h
    intro k hk1 hk2
    omega
  | case2 s hlt hne ih =>
    rw [findFrom, dif_pos hlt, if_neg hne] at h
    intro k hk1 hk2
    rcases Nat.eq_or_lt_of_le hk1 with rfl | hk
    · simpa using hne
    · exact ih h k hk hk2
  | case3 s hge =>
    rw [findFrom, dif_neg hge] at h
    cases h

theorem findFrom_none {src : List Nat} {c start : Nat}
    (h : findFrom src c start = none) :
    ∀ k, start ≤ k → k < src.length → src.getD k 0 ≠ c := by
  induction start using findFrom.induct src c with
  | case1 s hlt heq =>
    rw [findFrom, dif_pos hlt, if_pos heq] at h
    cases h
  | case2 s hlt hne ih =>
    rw [findFrom, dif_pos hlt, if_neg hne] at h
    intro k hk1 hk2
    rcases Nat.eq_or_lt_of_le hk1 with rfl | hk
    · simpa using hne
    · exact ih h k hk hk2
  | case3 s hge =>
    intro k hk1 hk2
    omega

theorem byteSlice_self {src : List Nat} {fr : Nat} : byteSlice src fr fr = [] := by
  simp [byteSlice]

theorem byteSlice_zero_len {src : List Nat} : byteSlice src 0 src.length = src := by
  simp [byteSlice]

theorem byteSlice_length {src : List Nat} {fr k : Nat} (h : k ≤ src.length) :
    (byteSlice src fr k).length = k - fr := by
  simp [byteSlice]
  omega

theorem byteSlice_ne_nil {src : List Nat} {fr k : Nat} (h1 : fr < k)
    (h2 : k ≤ src.length) : byteSlice src fr k ≠ [] := by
  intro hnil
  have := @byteSlice_length src fr k h2
  rw [hnil] at this
  simp at this
  omega

theorem byteSlice_snoc {src : List Nat} {fr k : Nat} (h1 : fr ≤ k)
    (h2 : k < src.length) :
    byteSlice src fr (k + 1) = byteSlice src fr k ++ [src.getD k 0] := by
  have hk : k + 1 - fr = (k - fr) + 1 := by omega
  rw [byteSlice, byteSlice, hk, List.take_succ]
  congr 1
  have : (src.drop fr)[k - fr]? = src[fr + (k - fr)]? := List.getElem?_drop _ _ _
  rw [this]
  have hfk : fr + (k - fr) = k := by omega
  rw [hfk, List.getElem?_eq_getElem h2]
  simp [List.getD_eq_getElem?_getD, List.getElem?_eq_getElem h2]

theorem byteSlice_append {src : List Nat} {fr m k : Nat} (h1 : fr ≤ m)
    (h2 : m ≤ k) :
    byteSlice src fr k = byteSlice src fr m ++ byteSlice src m k := by
  have hk : k - fr = (m - fr) + (k - m) := by omega
  rw [byteSlice, byteSlice, byteSlice, hk, List.take_add]
  congr 1
  rw [List.drop_drop]
  have h3 : fr + (m - fr) = m := by omega
  rw [h3]

/-- The whitespace-skipping loop
`while ptr < src_len and WS[ord(src_text[ptr])]: ptr += 1`
(identical in both implementations). -/
def wsSkip (src : List Nat) (ptr : Nat) : Nat :=
  if h : ptr < src.length then
    if isWS (src.getD ptr 0) then wsSkip src (ptr + 1) else ptr
  else ptr
termination_by src.length - ptr

theorem wsSkip_ge {src : List Nat} {ptr : Nat} : ptr ≤ wsSkip src ptr := by
  induction ptr using wsSkip.induct src with
  | case1 p hlt hws ih =>
    rw [wsSkip, dif_pos hlt, if_pos hws]
    omega
  | case2 p hlt hws =>
    rw [wsSkip, dif_pos hlt, if_neg hws]
  | case3 p hge =>
    rw [wsSkip, dif_neg hge]

theorem wsSkip_stop {src : List Nat} {ptr : Nat}
    (h : wsSkip src ptr < src.length) :
    ¬ isWS (src.getD (wsSkip src ptr) 0) = true := by
  induction ptr using wsSkip.induct src with
  | case1 p hlt hws ih =>
    rw [wsSkip, dif_pos hlt, if_pos hws] at h ⊢
    exact ih h
  | case2 p hlt hws =>
    rw [wsSkip, dif_pos hlt, if_neg hws] at h ⊢
    exact hws
  | case3 p hge =>
    rw [wsSkip, dif_neg hge] at h
    omega

theorem wsSkip_le {src : List Nat} {ptr : Nat} (h : ptr ≤ src.length) :
    wsSkip src ptr ≤ src.length := by
  induction ptr using wsSkip.induct src with
  | case1 p hlt hws ih =>
    rw [wsSkip, dif_pos hlt, if_pos hws]
    exact ih hlt
  | case2 p hlt hws =>
    rw [wsSkip, dif_pos hlt, if_neg hws]
    omega
  | case3 p hge =>
    rw [wsSkip, dif_neg hge]
    exact h

theorem beq_true_of_eq {a b : Nat} (h : a = b) : (a == b) = true := by
  simpa using h

theorem beq_not_true_of_ne {a b : Nat} (h : a ≠ b) : ¬ (a == b) = true := by
  simpa using h

theorem beq_or_true_of_eq {a b c : Nat} (h : a = b ∨ a = c) :
    (a == b || a == c) = true := by
  rcases h with h | h <;> simp [h]

theorem beq_or_not_true_of_ne {a b c : Nat} (h1 : a ≠ b) (h2 : a ≠ c) :
    ¬ (a == b || a == c) = true := by
  simpa using ⟨h1, h2⟩

theorem drop_cons_of_lt {src : List Nat} {ptr : Nat} (h : ptr < src.length) :
    src.drop ptr = src.getD ptr 0 :: src.drop (ptr + 1) := by
  rw [List.drop_eq_getElem_cons h]
  congr 1
  simp [List.getD_eq_getElem?_getD, List.getElem?_eq_getElem h]

theorem drop_nil_of_ge {src : List Nat} {ptr : Nat} (h : ¬ ptr < src.length) :
    src.drop ptr = [] := by
  apply List.drop_eq_nil_of_le
  omega

theorem isWC_not_isWS {b : Nat} (h : isWC b = true) : isWS b = false := by
  simp [isWC, isSpecial] at h
  simp [isWS]
  omega

theorem drop_eq_cons_inv {src : List Nat} {ptr b : Nat} {l : List Nat}
    (h : src.drop ptr = b :: l) :
    ptr < src.length ∧ src.getD ptr 0 = b ∧ src.drop (ptr + 1) = l := by
  have hlt : ptr < src.length := by
    by_contra hge
    rw [drop_nil_of_ge hge] at h
    cases h
  rw [drop_cons_of_lt hlt] at h
  injection h with h1 h2
  exact ⟨hlt, h1, h2⟩

/-- A quoted-string body on which unescaping is the identity: it contains no
`"` byte, no doubled backslash, and does not end in a backslash.  Exactly
these bodies survive a round trip through the quoted-string sub-loop. -/
def cleanBody : List Nat → Bool
  | [] => true
  | [b] =>
    if b == DOUBLE_QUOTE then false else if b == BACKSLASH then false else true
  | b :: c :: rest =>
    if b == DOUBLE_QUOTE then false
    else if b == BACKSLASH then
      if c == BACKSLASH || c == DOUBLE_QUOTE then false else cleanBody rest
    else cleanBody (c :: rest)

/-- Whether a suffix of the buffer still holds an unescaped closing `"`:
the condition under which the quoted-string sub-loop terminates without
error (a `\` followed by another byte hides that byte from the search, and a
trailing `\` hides the end of the buffer). -/
def hasClose : List Nat → Bool
  | [] => false
  | [b] => b == DOUBLE_QUOTE
  | b :: c :: rest =>
    if b == DOUBLE_QUOTE then true
    else if b == BACKSLASH then hasClose rest
    else hasClose (c :: rest)

theorem hasClose_one {b : Nat} : hasClose [b] = (b == DOUBLE_QUOTE) := by
  simp [hasClose]

theorem hasClose_cons_quote {b : Nat} {rest : List Nat} (h : b = DOUBLE_QUOTE) :
    hasClose (b :: rest) = true := by
  cases rest <;> simp [hasClose, h, DOUBLE_QUOTE]

theorem hasClose_cons_bs {b c : Nat} {rest : List Nat} (h : b = BACKSLASH) :
    hasClose (b :: c :: rest) = hasClose rest := by
  simp [hasClose, h, DOUBLE_QUOTE, BACKSLASH]

theorem hasClose_cons_plain {b : Nat} {rest : List Nat} (h1 : b ≠ DOUBLE_QUOTE)
    (h2 : b ≠ BACKSLASH) : hasClose (b :: rest) = hasClose rest := by
  cases rest <;> simp [hasClose, h1, h2]

namespace Impl1

/-- First implementation, quoted-string sub-loop (`while ptr < src_len:` after
`token.append(o)` with `o == DOUBLE_QUOTE`).  `token` is the bytearray built so
far; returns the yielded token together with the cursor after the closing
quote.  The `for`-else branch and the failed peek both raise
`No closing quote`. -/
def quote_loop (src : List Nat) (ptr : Nat) (token : Token) :
    Except LexError (Token × Nat) :=
  if h : ptr < src.length then
    if src.getD ptr 0 == BACKSLASH then
      if h2 : ptr + 1 < src.length then
        if src.getD (ptr + 1) 0 == BACKSLASH
            || src.getD (ptr + 1) 0 == DOUBLE_QUOTE then
          quote_loop src (ptr + 2) (token ++ [src.getD (ptr + 1) 0])
        else
          quote_loop src (ptr + 1) (token ++ [src.getD ptr 0])
      else .error .unterminatedQuote
    else if src.getD ptr 0 == DOUBLE_QUOTE then
      .ok (token ++ [src.getD ptr 0], ptr + 1)
    else quote_loop src (ptr + 1) (token ++ [src.getD ptr 0])
  else .error .unterminatedQuote
termination_by src.length - ptr

/-- First implementation, non-whitespace scan loop (`while ptr < src_len:`
with the pending token held as the index pair `fr`/`to`).  Returns the tokens
yielded during this pass and the cursor at `break` (or at buffer end). -/
def scan_loop (src : List Nat) (fr toIx ptr : Nat) :
    Except LexError (List Token × Nat) :=
  if h : ptr < src.length then
    if isWC (src.getD ptr 0) then scan_loop src fr (toIx + 1) (ptr + 1)
    else if src.getD ptr 0 == OPEN_SQUARE then
      if hfind : (findFrom src CLOSE_SQUARE (ptr + 1)).isSome then
        scan_loop src fr ((findFrom src CLOSE_SQUARE (ptr + 1)).get hfind + 1)
          ((findFrom src CLOSE_SQUARE (ptr + 1)).get hfind + 1)
      else .error .unterminatedBracket
    else if isWS (src.getD ptr 0) then
      .ok ([byteSlice src fr toIx], ptr + 1)
    else if src.getD ptr 0 == DOUBLE_QUOTE then
      if toIx > fr then .error .unexpectedQuote
      else
        match quote_loop src (ptr + 1) [DOUBLE_QUOTE] with
        | .error e => .error e
        | .ok (tok, ptr2) => .ok ([tok], ptr2)
    else
      .ok ((if toIx > fr then [byteSlice src fr toIx] else []) ++ [[src.getD ptr 0]],
        ptr + 1)
  else
    .ok (if toIx > fr then [byteSlice src fr toIx] else [], ptr)
termination_by src.length - ptr
decreasing_by
  · omega
  · have := findFrom_some (Option.some_get hfind).symm
    omega

theorem quote_loop_progress {src : List Nat} {ptr : Nat} {token tok : Token}
    {ptr' : Nat} (h : quote_loop src ptr token = .ok (tok, ptr')) :
    ptr < ptr' := by
  induction ptr, token using quote_loop.induct src with
  | case1 p token hlt hb h2 hesc ih =>
    rw [quote_loop, dif_pos hlt] at h
    simp only [hb, h2, hesc, if_true, dif_pos, ite_true, dite_true] at h
    have := ih h
    omega
  | case2 p token hlt hb h2 hesc ih =>
    rw [quote_loop, dif_pos hlt] at h
    simp only [hb, hesc, if_true, dif_pos h2, ite_true, if_false,
      Bool.false_eq_true, ite_false] at h
    have := ih h
    omega
  | case3 p token hlt hb h2 =>
    rw [quote_loop, dif_pos hlt] at h
    simp only [hb, dif_neg h2, ite_true] at h
    cases h
  | case4 p token hlt hb hq =>
    rw [quote_loop, dif_pos hlt] at h
    simp only [hb, hq, Bool.false_eq_true, ite_false, ite_true] at h
    cases h
    omega
  | case5 p token hlt hb hq ih =>
    rw [quote_loop, dif_pos hlt] at h
    simp only [hb, hq, Bool.false_eq_true, ite_false] at h
    have := ih h
    omega
  | case6 p token hge =>
    rw [quote_loop, dif_neg hge] at h
    cases h

theorem quote_loop_esc {src : List Nat} {ptr : Nat} {token : Token}
    (h2 : ptr + 1 < src.length) (hb : src.getD ptr 0 = BACKSLASH)
    (hesc : src.getD (ptr + 1) 0 = BACKSLASH ∨
      src.getD (ptr + 1) 0 = DOUBLE_QUOTE) :
    quote_loop src ptr token =
      quote_loop src (ptr + 2) (token ++ [src.getD (ptr + 1) 0]) := by
  rw [quote_loop, dif_pos (by omega), dif_pos h2]
  rw [if_pos (beq_true_of_eq hb), if_pos (beq_or_true_of_eq hesc)]

theorem quote_loop_bs_plain {src : List Nat} {ptr : Nat} {token : Token}
    (h2 : ptr + 1 < src.length) (hb : src.getD ptr 0 = BACKSLASH)
    (hne1 : src.getD (ptr + 1) 0 ≠ BACKSLASH)
    (hne2 : src.getD (ptr + 1) 0 ≠ DOUBLE_QUOTE) :
    quote_loop src ptr token =
      quote_loop src (ptr + 1) (token ++ [src.getD ptr 0]) := by
  rw [quote_loop, dif_pos (by omega), dif_pos h2]
  rw [if_pos (beq_true_of_eq hb), if_neg (beq_or_not_true_of_ne hne1 hne2)]

theorem quote_loop_bs_end {src : List Nat} {ptr : Nat} {token : Token}
    (hlt : ptr < src.length) (h2 : ¬ ptr + 1 < src.length)
    (hb : src.getD ptr 0 = BACKSLASH) :
    quote_loop src ptr token = .error .unterminatedQuote := by
  rw [quote_loop, dif_pos hlt]
  rw [if_pos (beq_true_of_eq hb), dif_neg h2]

theorem quote_loop_close {src : List Nat} {ptr : Nat} {token : Token}
    (hlt : ptr < src.length) (hq : src.getD ptr 0 = DOUBLE_QUOTE) :
    quote_loop src ptr token =
      .ok (token ++ [src.getD ptr 0], ptr + 1) := by
  rw [quote_loop, dif_pos hlt,
    if_neg (beq_not_true_of_ne (by rw [hq]; simp [DOUBLE_QUOTE, BACKSLASH])),
    if_pos (beq_true_of_eq hq)]

theorem quote_loop_plain {src : List Nat} {ptr : Nat} {token : Token}
    (hlt : ptr < src.length) (hnb : src.getD ptr 0 ≠ BACKSLASH)
    (hnq : src.getD ptr 0 ≠ DOUBLE_QUOTE) :
    quote_loop src ptr token =
      quote_loop src (ptr + 1) (token ++ [src.getD ptr 0]) := by
  rw [quote_loop, dif_pos hlt, if_neg (beq_not_true_of_ne hnb),
    if_neg (beq_not_true_of_ne hnq)]

theorem quote_loop_out {src : List Nat} {ptr : Nat} {token : Token}
    (hge : ¬ ptr < src.length) :
    quote_loop src ptr token = .error .unterminatedQuote := by
  rw [quote_loop, dif_neg hge]

/-- `quote_loop` only ever appends to the token buffer it was given. -/
theorem quote_loop_append {src : List Nat} {ptr : Nat} {token tok : Token}
    {ptr' : Nat} (h : quote_loop src ptr token = .ok (tok, ptr')) :
    ∃ ext, tok = token ++ ext := by
  induction ptr, token using quote_loop.induct src with
  | case1 p token hlt hb h2 hesc ih =>
    rw [quote_loop, dif_pos hlt] at h
    simp only [hb, h2, hesc, if_true, dif_pos, ite_true, dite_true] at h
    rcases ih h with ⟨ext, hext⟩
    exact ⟨_, by rw [hext, List.append_assoc]⟩
  | case2 p token hlt hb h2 hesc ih =>
    rw [quote_loop, dif_pos hlt] at h
    simp only [hb, hesc, if_true, dif_pos h2, ite_true, if_false,
      Bool.false_eq_true, ite_false] at h
    rcases ih h with ⟨ext, hext⟩
    exact ⟨_, by rw [hext, List.append_assoc]⟩
  | case3 p token hlt hb h2 =>
    rw [quote_loop, dif_pos hlt] at h
    simp only [hb, dif_neg h2, ite_true] at h
    cases h
  | case4 p token hlt hb hq =>
    rw [quote_loop, dif_pos hlt] at h
    simp only [hb, hq, Bool.false_eq_true, ite_false, ite_true] at h
    cases h
    exact ⟨_, rfl⟩
  | case5 p token hlt hb hq ih =>
    rw [quote_loop, dif_pos hlt] at h
    simp only [hb, hq, Bool.false_eq_true, ite_false] at h
    rcases ih h with ⟨ext, hext⟩
    exact ⟨_, by rw [hext, List.append_assoc]⟩
  | case6 p token hge =>
    rw [quote_loop, dif_neg hge] at h
    cases h

/-- A successful `quote_loop` leaves the cursor inside the buffer bound. -/
theorem quote_loop_le {src : List Nat} {ptr : Nat} {token tok : Token}
    {ptr' : Nat} (h : quote_loop src ptr token = .ok (tok, ptr')) :
    ptr' ≤ src.length := by
  induction ptr, token using quote_loop.induct src with
  | case1 p token hlt hb h2 hesc ih =>
    rw [quote_loop, dif_pos hlt] at h
    simp only [hb, h2, hesc, if_true, dif_pos, ite_true, dite_true] at h
    exact ih h
  | case2 p token hlt hb h2 hesc ih =>
    rw [quote_loop, dif_pos hlt] at h
    simp only [hb, hesc, if_true, dif_pos h2, ite_true, if_false,
      Bool.false_eq_true, ite_false] at h
    exact ih h
  | case3 p token hlt hb h2 =>
    rw [quote_loop, dif_pos hlt] at h
    simp only [hb, dif_neg h2, ite_true] at h
    cases h
  | case4 p token hlt hb hq =>
    rw [quote_loop, dif_pos hlt] at h
    simp only [hb, hq, Bool.false_eq_true, ite_false, ite_true] at h
    cases h
    omega
  | case5 p token hlt hb hq ih =>
    rw [quote_loop, dif_pos hlt] at h
    simp only [hb, hq, Bool.false_eq_true, ite_false] at h
    exact ih h
  | case6 p token hge =>
    rw [quote_loop, dif_neg hge] at h
    cases h

/-- `quote_loop` either succeeds or raises exactly `UnterminatedQuote`. -/
theorem quote_loop_total {src : List Nat} : ∀ ptr (token : Token),
    (∃ tok ptr', quote_loop src ptr token = .ok (tok, ptr')) ∨
      quote_loop src ptr token = .error .unterminatedQuote := by
  intro ptr token
  induction ptr, token using quote_loop.induct src with
  | case1 p token hlt hb h2 hesc ih =>
    rw [quote_loop_esc h2 (by simpa using hb) (by simpa using hesc)]
    exact ih
  | case2 p token hlt hb h2 hesc ih =>
    have hne : src.getD (p + 1) 0 ≠ BACKSLASH ∧
        src.getD (p + 1) 0 ≠ DOUBLE_QUOTE := by simpa using hesc
    rw [quote_loop_bs_plain h2 (by simpa using hb) hne.1 hne.2]
    exact ih
  | case3 p token hlt hb h2 =>
    exact Or.inr (quote_loop_bs_end hlt h2 (by simpa using hb))
  | case4 p token hlt hb hq =>
    exact Or.inl ⟨_, _, quote_loop_close hlt (by simpa using hq)⟩
  | case5 p token hlt hb hq ih =>
    rw [quote_loop_plain hlt (by simpa using hb) (by simpa using hq)]
    exact ih
  | case6 p token hge =>
    exact Or.inr (quote_loop_out hge)

theorem scan_loop_wc {src : List Nat} {fr toIx ptr : Nat}
    (hlt : ptr < src.length) (hwc : isWC (src.getD ptr 0) = true) :
    scan_loop src fr toIx ptr = scan_loop src fr (toIx + 1) (ptr + 1) := by
  rw [scan_loop, dif_pos hlt, if_pos hwc]

theorem scan_loop_sq_none {src : List Nat} {fr toIx ptr : Nat}
    (hlt : ptr < src.length) (hwc : ¬ isWC (src.getD ptr 0) = true)
    (hsq : (src.getD ptr 0 == OPEN_SQUARE) = true)
    (hfind : findFrom src CLOSE_SQUARE (ptr + 1) = none) :
    scan_loop src fr toIx ptr = .error .unterminatedBracket := by
  rw [scan_loop, dif_pos hlt, if_neg hwc, if_pos hsq, dif_neg]
  simp [hfind]

theorem scan_loop_sq_some {src : List Nat} {fr toIx ptr ind : Nat}
    (hlt : ptr < src.length) (hwc : ¬ isWC (src.getD ptr 0) = true)
    (hsq : (src.getD ptr 0 == OPEN_SQUARE) = true)
    (hfind : findFrom src CLOSE_SQUARE (ptr + 1) = some ind) :
    scan_loop src fr toIx ptr = scan_loop src fr (ind + 1) (ind + 1) := by
  rw [scan_loop, dif_pos hlt, if_neg hwc, if_pos hsq,
    dif_pos (by simp [hfind])]
  simp only [hfind, Option.get_some]

theorem scan_loop_ws {src : List Nat} {fr toIx ptr : Nat}
    (hlt : ptr < src.length) (hwc : ¬ isWC (src.getD ptr 0) = true)
    (hsq : ¬ (src.getD ptr 0 == OPEN_SQUARE) = true)
    (hws : isWS (src.getD ptr 0) = true) :
    scan_loop src fr toIx ptr = .ok ([byteSlice src fr toIx], ptr + 1) := by
  rw [scan_loop, dif_pos hlt, if_neg hwc, if_neg hsq, if_pos hws]

theorem scan_loop_quote_mid {src : List Nat} {fr toIx ptr : Nat}
    (hlt : ptr < src.length) (hwc : ¬ isWC (src.getD ptr 0) = true)
    (hsq : ¬ (src.getD ptr 0 == OPEN_SQUARE) = true)
    (hws : ¬ isWS (src.getD ptr 0) = true)
    (hq : (src.getD ptr 0 == DOUBLE_QUOTE) = true) (hgt : toIx > fr) :
    scan_loop src fr toIx ptr = .error .unexpectedQuote := by
  rw [scan_loop, dif_pos hlt, if_neg hwc, if_neg hsq, if_neg hws, if_pos hq,
    if_pos hgt]

theorem scan_loop_quote {src : List Nat} {fr toIx ptr : Nat}
    (hlt : ptr < src.length) (hwc : ¬ isWC (src.getD ptr 0) = true)
    (hsq : ¬ (src.getD ptr 0 == OPEN_SQUARE) = true)
    (hws : ¬ isWS (src.getD ptr 0) = true)
    (hq : (src.getD ptr 0 == DOUBLE_QUOTE) = true) (hle : ¬ toIx > fr) :
    scan_loop src fr toIx ptr =
      match quote_loop src (ptr + 1) [DOUBLE_QUOTE] with
      | .error e => .error e
      | .ok (tok, ptr2) => .ok ([tok], ptr2) := by
  rw [scan_loop, dif_pos hlt, if_neg hwc, if_neg hsq, if_neg hws, if_pos hq,
    if_neg hle]

theorem scan_loop_punct {src : List Nat} {fr toIx ptr : Nat}
    (hlt : ptr < src.length) (hwc : ¬ isWC (src.getD ptr 0) = true)
    (hsq : ¬ (src.getD ptr 0 == OPEN_SQUARE) = true)
    (hws : ¬ isWS (src.getD ptr 0) = true)
    (hq : ¬ (src.getD ptr 0 == DOUBLE_QUOTE) = true) :
    scan_loop src fr toIx ptr =
      .ok ((if toIx > fr then [byteSlice src fr toIx] else []) ++ [[src.getD ptr 0]],
        ptr + 1) := by
  rw [scan_loop, dif_pos hlt, if_neg hwc, if_neg hsq, if_neg hws, if_neg hq]

theorem scan_loop_end {src : List Nat} {fr toIx ptr : Nat}
    (hge : ¬ ptr < src.length) :
    scan_loop src fr toIx ptr =
      .ok (if toIx > fr then [byteSlice src fr toIx] else [], ptr) := by
  rw [scan_loop, dif_neg hge]

theorem scan_loop_progress {src : List Nat} {fr toIx ptr : Nat}
    {toks : List Token} {ptr' : Nat}
    (h : scan_loop src fr toIx ptr = .ok (toks, ptr')) :
    ptr < ptr' ∨ (ptr' = ptr ∧ src.length ≤ ptr) := by
  induction toIx, ptr using scan_loop.induct src fr with
  | case1 toIx p hlt hwc ih =>
    rw [scan_loop_wc hlt hwc] at h
    rcases ih h with h1 | h1 <;> omega
  | case2 toIx p hlt hwc hsq hfind ih =>
    have hsome : findFrom src CLOSE_SQUARE (p + 1) =
        some ((findFrom src CLOSE_SQUARE (p + 1)).get hfind) :=
      (Option.some_get hfind).symm
    rw [scan_loop_sq_some hlt hwc hsq hsome] at h
    have hge := (findFrom_some hsome).1
    rcases ih h with h1 | h1 <;> omega
  | case3 toIx p hlt hwc hsq hfind =>
    have hnone : findFrom src CLOSE_SQUARE (p + 1) = none :=
      Option.not_isSome_iff_eq_none.mp (by simpa using hfind)
    rw [scan_loop_sq_none hlt hwc hsq hnone] at h
    cases h
  | case4 toIx p hlt hwc hsq hws =>
    rw [scan_loop_ws hlt hwc hsq hws] at h
    cases h
    omega
  | case5 toIx p hlt hwc hsq hws hq hgt =>
    rw [scan_loop_quote_mid hlt hwc hsq hws hq hgt] at h
    cases h
  | case6 toIx p hlt hwc hsq hws hq hle e hql =>
    rw [scan_loop_quote hlt hwc hsq hws hq hle, hql] at h
    cases h
  | case7 toIx p hlt hwc hsq hws hq hle tok ptr2 hql =>
    rw [scan_loop_quote hlt hwc hsq hws hq hle, hql] at h
    cases h
    have := quote_loop_progress hql
    omega
  | case8 toIx p hlt hwc hsq hws hq =>
    rw [scan_loop_punct hlt hwc hsq hws hq] at h
    cases h
    omega
  | case9 toIx p hge =>
    rw [scan_loop_end hge] at h
    cases h
    omega

theorem scan_loop_le {src : List Nat} {fr : Nat} : ∀ toIx ptr,
    ptr ≤ src.length → ∀ toks (ptr' : Nat),
    scan_loop src fr toIx ptr = .ok (toks, ptr') → ptr' ≤ src.length := by
  intro toIx ptr
  induction toIx, ptr using scan_loop.induct src fr with
  | case1 p q hlt hwc ih =>
    intro h0 toks ptr' hs
    rw [scan_loop_wc hlt hwc] at hs
    exact ih (by omega) _ _ hs
  | case2 p q hlt hwc hsq hfind ih =>
    intro h0 toks ptr' hs
    have hsome : findFrom src CLOSE_SQUARE (q + 1) =
        some ((findFrom src CLOSE_SQUARE (q + 1)).get hfind) :=
      (Option.some_get hfind).symm
    have hbnd := findFrom_some hsome
    rw [scan_loop_sq_some hlt hwc hsq hsome] at hs
    exact ih (by omega) _ _ hs
  | case3 p q hlt hwc hsq hfind =>
    intro h0 toks ptr' hs
    have hnone : findFrom src CLOSE_SQUARE (q + 1) = none :=
      Option.not_isSome_iff_eq_none.mp (by simpa using hfind)
    rw [scan_loop_sq_none hlt hwc hsq hnone] at hs
    cases hs
  | case4 p q hlt hwc hsq hws =>
    intro h0 toks ptr' hs
    rw [scan_loop_ws hlt hwc hsq hws] at hs
    cases hs
    omega
  | case5 p q hlt hwc hsq hws hq hgt =>
    intro h0 toks ptr' hs
    rw [scan_loop_quote_mid hlt hwc hsq hws hq hgt] at hs
    cases hs
  | case6 p q hlt hwc hsq hws hq hle e hql =>
    intro h0 toks ptr' hs
    rw [scan_loop_quote hlt hwc hsq hws hq hle, hql] at hs
    cases hs
  | case7 p q hlt hwc hsq hws hq hle tok ptr2 hql =>
    intro h0 toks ptr' hs
    rw [scan_loop_quote hlt hwc hsq hws hq hle, hql] at hs
    cases hs
    exact quote_loop_le hql
  | case8 p q hlt hwc hsq hws hq =>
    intro h0 toks ptr' hs
    rw [scan_loop_punct hlt hwc hsq hws hq] at hs
    cases hs
    omega
  | case9 p q hge =>
    intro h0 toks ptr' hs
    rw [scan_loop_end hge] at hs
    cases hs
    omega

/-- Every token yielded by one scan pass is non-empty, provided the pass was
entered with an empty pending region positioned on a non-whitespace byte. -/
theorem scan_tokens_ne_nil {src : List Nat} {fr : Nat} : ∀ toIx ptr,
    fr ≤ toIx → toIx = ptr → toIx ≤ src.length →
    (fr = ptr → ptr < src.length → ¬ isWS (src.getD ptr 0) = true) →
    ∀ toks (ptr' : Nat), scan_loop src fr toIx ptr = .ok (toks, ptr') →
    ∀ t ∈ toks, t ≠ [] := by
  intro toIx ptr
  induction toIx, ptr using scan_loop.induct src fr with
  | case1 p q hlt hwc ih =>
    intro h1 he h2 hnw toks ptr' hs
    subst he
    rw [scan_loop_wc hlt hwc] at hs
    exact ih (by omega) rfl (by omega) (fun hfr => absurd hfr (by omega)) _ _ hs
  | case2 p q hlt hwc hsq hfind ih =>
    intro h1 he h2 hnw toks ptr' hs
    subst he
    have hsome : findFrom src CLOSE_SQUARE (p + 1) =
        some ((findFrom src CLOSE_SQUARE (p + 1)).get hfind) :=
      (Option.some_get hfind).symm
    have hbnd := findFrom_some hsome
    rw [scan_loop_sq_some hlt hwc hsq hsome] at hs
    exact ih (by omega) rfl (by omega) (fun hfr => absurd hfr (by omega)) _ _ hs
  | case3 p q hlt hwc hsq hfind =>
    intro h1 he h2 hnw toks ptr' hs
    subst he
    have hnone : findFrom src CLOSE_SQUARE (p + 1) = none :=
      Option.not_isSome_iff_eq_none.mp (by simpa using hfind)
    rw [scan_loop_sq_none hlt hwc hsq hnone] at hs
    cases hs
  | case4 p q hlt hwc hsq hws =>
    intro h1 he h2 hnw toks ptr' hs
    subst he
    rw [scan_loop_ws hlt hwc hsq hws] at hs
    cases hs
    intro t ht
    have hfr : fr ≠ p := by
      intro hfr
      exact (hnw hfr hlt) hws
    rcases List.mem_singleton.mp ht with rfl
    exact byteSlice_ne_nil (by omega) h2
  | case5 p q hlt hwc hsq hws hq hgt =>
    intro h1 he h2 hnw toks ptr' hs
    subst he
    rw [scan_loop_quote_mid hlt hwc hsq hws hq hgt] at hs
    cases hs
  | case6 p q hlt hwc hsq hws hq hle e hql =>
    intro h1 he h2 hnw toks ptr' hs
    subst he
    rw [scan_loop_quote hlt hwc hsq hws hq hle, hql] at hs
    cases hs
  | case7 p q hlt hwc hsq hws hq hle tok ptr2 hql =>
    intro h1 he h2 hnw toks ptr' hs
    subst he
    rw [scan_loop_quote hlt hwc hsq hws hq hle, hql] at hs
    cases hs
    intro t ht
    rcases List.mem_singleton.mp ht with rfl
    rcases quote_loop_append hql with ⟨ext, hext⟩
    rw [hext]
    simp
  | case8 p q hlt hwc hsq hws hq =>
    intro h1 he h2 hnw toks ptr' hs
    subst he
    rw [scan_loop_punct hlt hwc hsq hws hq] at hs
    cases hs
    intro t ht
    rcases List.mem_append.mp ht with h | h
    · by_cases hgt : p > fr
      · rw [if_pos hgt] at h
        rcases List.mem_singleton.mp h with rfl
        exact byteSlice_ne_nil hgt h2
      · rw [if_neg hgt] at h
        cases h
    · rcases List.mem_singleton.mp h with rfl
      simp
  | case9 p q hge =>
    intro h1 he h2 hnw toks ptr' hs
    subst he
    rw [scan_loop_end hge] at hs
    cases hs
    intro t ht
    by_cases hgt : p > fr
    · rw [if_pos hgt] at ht
      rcases List.mem_singleton.mp ht with rfl
      exact byteSlice_ne_nil hgt h2
    · rw [if_neg hgt] at ht
      cases ht

/-- On a suffix made entirely of word-characters, the scan pass swallows the
whole rest of the buffer into the pending region and yields it (when
non-empty) at buffer end. -/
theorem scan_loop_fullwc {src : List Nat} {fr : Nat} : ∀ toIx ptr,
    toIx = ptr → fr ≤ ptr → ptr ≤ src.length →
    (∀ k, ptr ≤ k → k < src.length → isWC (src.getD k 0) = true) →
    scan_loop src fr toIx ptr =
      .ok (if fr < src.length then [byteSlice src fr src.length] else [],
        src.length) := by
  intro toIx ptr
  induction toIx, ptr using scan_loop.induct src fr with
  | case1 p q hlt hwc ih =>
    intro he h1 h2 hall
    subst he
    rw [scan_loop_wc hlt hwc]
    exact ih rfl (by omega) (by omega) (fun k hk1 hk2 => hall k (by omega) hk2)
  | case2 p q hlt hwc hsq hfind ih =>
    intro he h1 h2 hall
    exact absurd (hall q (by omega) hlt) hwc
  | case3 p q hlt hwc hsq hfind =>
    intro he h1 h2 hall
    exact absurd (hall q (by omega) hlt) hwc
  | case4 p q hlt hwc hsq hws =>
    intro he h1 h2 hall
    exact absurd (hall q (by omega) hlt) hwc
  | case5 p q hlt hwc hsq hws hq hgt =>
    intro he h1 h2 hall
    exact absurd (hall q (by omega) hlt) hwc
  | case6 p q hlt hwc hsq hws hq hle e hql =>
    intro he h1 h2 hall
    exact absurd (hall q (by omega) hlt) hwc
  | case7 p q hlt hwc hsq hws hq hle tok ptr2 hql =>
    intro he h1 h2 hall
    exact absurd (hall q (by omega) hlt) hwc
  | case8 p q hlt hwc hsq hws hq =>
    intro he h1 h2 hall
    exact absurd (hall q (by omega) hlt) hwc
  | case9 p q hge =>
    intro he h1 h2 hall
    subst he
    have hq : p = src.length := by omega
    subst hq
    rw [scan_loop_end hge]

/-- First implementation, outer loop of `read_token_stream` (`while ptr <
src_len:`): whitespace skip, then one scan-loop pass, repeated; the yielded
tokens are collected in order. -/
def stream_loop (src : List Nat) (ptr : Nat) : Except LexError (List Token) :=
  if hp : ptr < src.length then
    match hs : scan_loop src (wsSkip src ptr) (wsSkip src ptr) (wsSkip src ptr)
      with
    | .error e => .error e
    | .ok (toks, ptr') =>
      match stream_loop src ptr' with
      | .error e => .error e
      | .ok rest => .ok (toks ++ rest)
  else .ok []
termination_by src.length - ptr
decreasing_by
  have h1 : ptr ≤ wsSkip src ptr := wsSkip_ge
  rcases scan_loop_progress hs with h2 | h2 <;> omega

/-- `read_token_stream(src_text)`, first implementation: the full sequence of
yielded tokens, or the raised error. -/
def read_token_stream (src : List Nat) : Except LexError (List Token) :=
  stream_loop src 0

theorem stream_loop_end {src : List Nat} {ptr : Nat}
    (hge : ¬ ptr < src.length) : stream_loop src ptr = .ok [] := by
  rw [stream_loop.eq_def, dif_neg hge]

theorem stream_loop_step_err {src : List Nat} {ptr : Nat} {e : LexError}
    (hp : ptr < src.length)
    (hs : scan_loop src (wsSkip src ptr) (wsSkip src ptr) (wsSkip src ptr) =
      .error e) :
    stream_loop src ptr = .error e := by
  rw [stream_loop.eq_def, dif_pos hp]
  split
  · rename_i e' heq
    rw [hs] at heq
    cases heq
    rfl
  · rename_i toks ptr' heq
    rw [hs] at heq
    cases heq

theorem stream_loop_step_ok {src : List Nat} {ptr ptr' : Nat}
    {toks : List Token} (hp : ptr < src.length)
    (hs : scan_loop src (wsSkip src ptr) (wsSkip src ptr) (wsSkip src ptr) =
      .ok (toks, ptr')) :
    stream_loop src ptr =
      match stream_loop src ptr' with
      | .error e => .error e
      | .ok rest => .ok (toks ++ rest) := by
  rw [stream_loop.eq_def, dif_pos hp]
  split
  · rename_i e' heq
    rw [hs] at heq
    cases heq
  · rename_i toks2 ptr2 heq
    rw [hs] at heq
    cases heq
    rfl

theorem stream_loop_eval_ok {src : List Nat} {ptr ptr' : Nat}
    {toks rest : List Token} (hp : ptr < src.length)
    (hs : scan_loop src (wsSkip src ptr) (wsSkip src ptr) (wsSkip src ptr) =
      .ok (toks, ptr'))
    (hrest : stream_loop src ptr' = .ok rest) :
    stream_loop src ptr = .ok (toks ++ rest) := by
  rw [stream_loop_step_ok hp hs, hrest]

theorem stream_loop_eval_err {src : List Nat} {ptr ptr' : Nat}
    {toks : List Token} {e : LexError} (hp : ptr < src.length)
    (hs : scan_loop src (wsSkip src ptr) (wsSkip src ptr) (wsSkip src ptr) =
      .ok (toks, ptr'))
    (hrest : stream_loop src ptr' = .error e) :
    stream_loop src ptr = .error e := by
  rw [stream_loop_step_ok hp hs, hrest]

/-- A structurally recursive twin of `stream_loop`, used to evaluate the
lexer on concrete inputs; `stream_loop_eq_fuel` shows it agrees with
`stream_loop` whenever the fuel covers the remaining buffer. -/
def stream_fuel : Nat → List Nat → Nat → Except LexError (List Token)
  | 0, _, _ => .ok []
  | fuel + 1, src, ptr =>
    if ptr < src.length then
      match scan_loop src (wsSkip src ptr) (wsSkip src ptr) (wsSkip src ptr)
        with
      | .error e => .error e
      | .ok (toks, ptr') =>
        match stream_fuel fuel src ptr' with
        | .error e => .error e
        | .ok rest => .ok (toks ++ rest)
    else .ok []

theorem stream_loop_eq_fuel {fuel : Nat} {src : List Nat} {ptr : Nat}
    (hf : src.length ≤ ptr + fuel) : stream_loop src ptr = stream_fuel fuel src ptr := by
  induction fuel generalizing ptr with
  | zero =>
    rw [stream_fuel, stream_loop_end (by omega)]
  | succ n ih =>
    rw [stream_fuel]
    by_cases hp : ptr < src.length
    · rw [if_pos hp]
      rcases hs : scan_loop src (wsSkip src ptr) (wsSkip src ptr)
          (wsSkip src ptr) with e | ⟨toks, ptr'⟩
      · rw [stream_loop_step_err hp hs]
      · rw [stream_loop_step_ok hp hs]
        have hprog := scan_loop_progress hs
        have hwge : ptr ≤ wsSkip src ptr := wsSkip_ge
        rw [ih (by omega)]
    · rw [if_neg hp, stream_loop_end hp]

theorem read_token_stream_eval {src : List Nat} :
    read_token_stream src = stream_fuel src.length src 0 := by
  rw [read_token_stream, @stream_loop_eq_fuel src.length src 0 (by omega)]

/-- Every token yielded by the first implementation's outer loop is
non-empty. -/
theorem stream_tokens_ne_nil {src : List Nat} : ∀ ptr, ptr ≤ src.length →
    ∀ toks, stream_loop src ptr = .ok toks → ∀ t ∈ toks, t ≠ [] := by
  intro ptr
  induction ptr using stream_loop.induct src with
  | case1 p hp e hs =>
    intro h0 toks hstream
    rw [stream_loop_step_err hp hs] at hstream
    cases hstream
  | case2 p hp toks1 ptr1 hs e hrest ih =>
    intro h0 toks hstream
    rw [stream_loop_step_ok hp hs, hrest] at hstream
    cases hstream
  | case3 p hp toks1 ptr1 hs rest hrest ih =>
    intro h0 toks hstream
    rw [stream_loop_step_ok hp hs, hrest] at hstream
    cases hstream
    intro t ht
    have hwle : wsSkip src p ≤ src.length := wsSkip_le (by omega)
    rcases List.mem_append.mp ht with h | h
    · exact scan_tokens_ne_nil _ _ le_rfl rfl hwle
        (fun _ hlt2 => wsSkip_stop hlt2) _ _ hs t h
    · exact ih (scan_loop_le _ _ hwle _ _ hs) rest hrest t h
  | case4 p hge =>
    intro h0 toks hstream
    rw [stream_loop_end hge] at hstream
    cases hstream
    intro t ht
    cases ht

/-- A non-empty all-word-character buffer tokenizes to exactly itself. -/
theorem read_token_stream_atom {t : List Nat} (h1 : t ≠ [])
    (h2 : t.all isWC = true) : read_token_stream t = .ok [t] := by
  have hlen : 0 < t.length := List.length_pos.mpr h1
  have hall : ∀ k, k < t.length → isWC (t.getD k 0) = true := by
    intro k hk
    have : t.getD k 0 ∈ t := by
      rw [List.getD_eq_getElem _ _ hk]
      exact List.getElem_mem hk
    exact List.all_eq_true.mp h2 _ this
  have hws0 : wsSkip t 0 = 0 := by
    rw [wsSkip, dif_pos hlen]
    rw [if_neg]
    rw [isWC_not_isWS (hall 0 hlen)]
    simp
  have hscan : scan_loop t (wsSkip t 0) (wsSkip t 0) (wsSkip t 0) =
      .ok ([t], t.length) := by
    rw [hws0, scan_loop_fullwc 0 0 rfl le_rfl (by omega)
      (fun k _ hk => hall k hk), if_pos hlen, byteSlice_zero_len]
  rw [read_token_stream,
    stream_loop_eval_ok hlen hscan (stream_loop_end (by omega))]
  simp

/-- Feeding the quoted-string sub-loop a clean body followed by the closing
quote appends the body and the quote verbatim and stops right after the
quote. -/
theorem quote_loop_clean {src : List Nat} : ∀ body : List Nat,
    ∀ (ptr : Nat) (token : Token) (rest : List Nat), cleanBody body = true →
    src.drop ptr = body ++ DOUBLE_QUOTE :: rest →
    quote_loop src ptr token =
      .ok (token ++ body ++ [DOUBLE_QUOTE], ptr + body.length + 1) := by
  intro body
  induction body using cleanBody.induct with
  | case1 =>
    intro ptr token rest2 hclean hdrop
    rw [List.nil_append] at hdrop
    rcases drop_eq_cons_inv hdrop with ⟨hlt, hget, _⟩
    rw [quote_loop_close hlt hget, hget]
    simp
  | case2 b hq =>
    intro ptr token rest2 hclean hdrop
    simp only [cleanBody] at hclean
    rw [if_pos hq] at hclean
    cases hclean
  | case3 b hq hb =>
    intro ptr token rest2 hclean hdrop
    simp only [cleanBody] at hclean
    rw [if_neg hq, if_pos hb] at hclean
    cases hclean
  | case4 b hq hb =>
    intro ptr token rest2 hclean hdrop
    have hq' : b ≠ DOUBLE_QUOTE := by simpa using hq
    have hb' : b ≠ BACKSLASH := by simpa using hb
    rw [List.cons_append, List.nil_append] at hdrop
    rcases drop_eq_cons_inv hdrop with ⟨hlt, hget, hdrop1⟩
    rcases drop_eq_cons_inv hdrop1 with ⟨hlt1, hget1, _⟩
    rw [quote_loop_plain hlt (hget ▸ hb') (hget ▸ hq'),
      quote_loop_close hlt1 hget1, hget, hget1]
    simp
  | case5 b c rest hq =>
    intro ptr token rest2 hclean hdrop
    simp only [cleanBody] at hclean
    rw [if_pos hq] at hclean
    cases hclean
  | case6 b c rest hq hb hesc =>
    intro ptr token rest2 hclean hdrop
    simp only [cleanBody] at hclean
    rw [if_neg hq, if_pos hb, if_pos hesc] at hclean
    cases hclean
  | case7 b c rest hq hb hesc ih =>
    intro ptr token rest2 hclean hdrop
    have hb' : b = BACKSLASH := by simpa using hb
    have hclean2 : cleanBody rest = true := by
      simp only [cleanBody] at hclean
      rw [if_neg hq, if_pos hb, if_neg hesc] at hclean
      exact hclean
    have hc : c ≠ BACKSLASH ∧ c ≠ DOUBLE_QUOTE := by simpa using hesc
    rw [List.cons_append, List.cons_append] at hdrop
    rcases drop_eq_cons_inv hdrop with ⟨hlt, hget, hdrop1⟩
    rcases drop_eq_cons_inv hdrop1 with ⟨hlt1, hget1, hdrop2⟩
    rw [quote_loop_bs_plain hlt1 (hget.trans hb') (hget1 ▸ hc.1)
      (hget1 ▸ hc.2)]
    rw [quote_loop_plain hlt1 (hget1 ▸ hc.1) (hget1 ▸ hc.2)]
    rw [ih (ptr + 2) (token ++ [src.getD ptr 0] ++ [src.getD (ptr + 1) 0])
      rest2 hclean2 hdrop2]
    rw [hget, hget1, hb']
    simp [List.append_assoc]
    omega
  | case8 b c rest hq hb ih =>
    intro ptr token rest2 hclean hdrop
    have hq' : b ≠ DOUBLE_QUOTE := by simpa using hq
    have hb' : b ≠ BACKSLASH := by simpa using hb
    have hclean2 : cleanBody (c :: rest) = true := by
      simp only [cleanBody] at hclean
      rw [if_neg hq, if_neg hb] at hclean
      exact hclean
    rw [List.cons_append] at hdrop
    rcases drop_eq_cons_inv hdrop with ⟨hlt, hget, hdrop1⟩
    rw [quote_loop_plain hlt (hget ▸ hb') (hget ▸ hq')]
    rw [ih (ptr + 1) (token ++ [src.getD ptr 0]) rest2 hclean2
      (by rw [hdrop1, List.cons_append])]
    rw [hget]
    simp [List.append_assoc]
    omega

/-- A quoted-string token whose body is clean re-tokenizes to exactly
itself. -/
theorem read_token_stream_quoted {body : List Nat}
    (hclean : cleanBody body = true) :
    read_token_stream (DOUBLE_QUOTE :: body ++ [DOUBLE_QUOTE]) =
      .ok [DOUBLE_QUOTE :: body ++ [DOUBLE_QUOTE]] := by
  set t := DOUBLE_QUOTE :: body ++ [DOUBLE_QUOTE] with ht
  have hlen : t.length = body.length + 2 := by simp [ht]
  have hpos : 0 < t.length := by omega
  have hget0 : t.getD 0 0 = DOUBLE_QUOTE := by simp [ht]
  have hws0 : wsSkip t 0 = 0 := by
    rw [wsSkip, dif_pos hpos, if_neg]
    rw [hget0]
    simp [isWS, DOUBLE_QUOTE]
  have hdrop : t.drop 1 = body ++ DOUBLE_QUOTE :: [] := by simp [ht]
  have hql : quote_loop t 1 [DOUBLE_QUOTE] =
      .ok ([DOUBLE_QUOTE] ++ body ++ [DOUBLE_QUOTE], t.length) := by
    rw [quote_loop_clean body 1 [DOUBLE_QUOTE] [] hclean hdrop]
    rw [hlen]
    congr 2
    omega
  have hscan : scan_loop t (wsSkip t 0) (wsSkip t 0) (wsSkip t 0) =
      .ok ([t], t.length) := by
    rw [hws0, scan_loop_quote hpos
      (by rw [hget0]; simp [isWC, isSpecial, DOUBLE_QUOTE])
      (by rw [hget0]; simp [DOUBLE_QUOTE, OPEN_SQUARE])
      (by rw [hget0]; simp [isWS, DOUBLE_QUOTE])
      (by rw [hget0]; simp [DOUBLE_QUOTE]) (by omega), hql]
    simp [ht]
  rw [read_token_stream,
    stream_loop_eval_ok hpos hscan (stream_loop_end (by omega))]
  simp

/-- The quoted-string sub-loop succeeds exactly when an unescaped closing
quote remains in the buffer. -/
theorem quote_loop_hasClose {src : List Nat} : ∀ ptr (token : Token),
    ((∃ tok ptr', quote_loop src ptr token = .ok (tok, ptr')) ↔
      hasClose (src.drop ptr) = true) := by
  intro ptr token
  induction ptr, token using quote_loop.induct src with
  | case1 p token hlt hb h2 hesc ih =>
    have hb' : src.getD p 0 = BACKSLASH := by simpa using hb
    rw [quote_loop_esc h2 hb' (by simpa using hesc)]
    rw [drop_cons_of_lt hlt, drop_cons_of_lt h2, hasClose_cons_bs hb']
    exact ih
  | case2 p token hlt hb h2 hesc ih =>
    have hb' : src.getD p 0 = BACKSLASH := by simpa using hb
    have hne : src.getD (p + 1) 0 ≠ BACKSLASH ∧
        src.getD (p + 1) 0 ≠ DOUBLE_QUOTE := by simpa using hesc
    rw [quote_loop_bs_plain h2 hb' hne.1 hne.2, ih,
      drop_cons_of_lt hlt, drop_cons_of_lt h2,
      hasClose_cons_bs hb', hasClose_cons_plain hne.2 hne.1]
  | case3 p token hlt hb h2 =>
    have hb' : src.getD p 0 = BACKSLASH := by simpa using hb
    rw [quote_loop_bs_end hlt h2 hb']
    rw [drop_cons_of_lt hlt, drop_nil_of_ge h2, hasClose_one]
    constructor
    · rintro ⟨tok, ptr', h⟩
      cases h
    · intro h
      rw [hb'] at h
      simp [BACKSLASH, DOUBLE_QUOTE] at h
  | case4 p token hlt hb hq =>
    have hq' : src.getD p 0 = DOUBLE_QUOTE := by simpa using hq
    rw [quote_loop_close hlt hq']
    rw [drop_cons_of_lt hlt, hasClose_cons_quote hq']
    simp
  | case5 p token hlt hb hq ih =>
    have hb' : src.getD p 0 ≠ BACKSLASH := by simpa using hb
    have hq' : src.getD p 0 ≠ DOUBLE_QUOTE := by simpa using hq
    rw [quote_loop_plain hlt hb' hq']
    rw [drop_cons_of_lt hlt, hasClose_cons_plain hq' hb']
    exact ih
  | case6 p token hge =>
    rw [quote_loop_out hge, drop_nil_of_ge hge]
    simp [hasClose]

/-- Once quote mode is entered, the sub-loop raises `UnterminatedQuote`
exactly when no unescaped closing quote remains. -/
theorem quote_loop_error_iff {src : List Nat} (ptr : Nat) (token : Token) :
    quote_loop src ptr token = .error .unterminatedQuote ↔
      hasClose (src.drop ptr) = false := by
  constructor
  · intro herr
    rcases Bool.eq_false_or_eq_true (hasClose (src.drop ptr)) with h | h
    · exfalso
      rcases (quote_loop_hasClose ptr token).mpr h with ⟨tok, ptr', hok⟩
      rw [herr] at hok
      cases hok
    · exact h
  · intro hfalse
    rcases quote_loop_total ptr token with ⟨tok, ptr', hok⟩ | herr
    · have := (quote_loop_hasClose ptr token).mp ⟨tok, ptr', hok⟩
      rw [hfalse] at this
      cases this
    · exact herr

end Impl1

namespace Impl2

/-- Second implementation, quoted-string sub-loop.  Textually the same loop
as `Impl1.quote_loop` (it compares against `BACKSLASH_CHR` /
`DOUBLE_QUOTE_CHR` instead of `ord` values). -/
def quote_loop (src : List Nat) (ptr : Nat) (token : Token) :
    Except LexError (Token × Nat) :=
  if h : ptr < src.length then
    if src.getD ptr 0 == BACKSLASH then
      if h2 : ptr + 1 < src.length then
        if src.getD (ptr + 1) 0 == BACKSLASH
            || src.getD (ptr + 1) 0 == DOUBLE_QUOTE then
          quote_loop src (ptr + 2) (token ++ [src.getD (ptr + 1) 0])
        else
          quote_loop src (ptr + 1) (token ++ [src.getD ptr 0])
      else .error .unterminatedQuote
    else if src.getD ptr 0 == DOUBLE_QUOTE then
      .ok (token ++ [src.getD ptr 0], ptr + 1)
    else quote_loop src (ptr + 1) (token ++ [src.getD ptr 0])
  else .error .unterminatedQuote
termination_by src.length - ptr

/-- Second implementation, non-whitespace scan loop: the pending token is
accumulated in the bytearray `token` instead of being tracked as an index
pair.  `assert_imap_protocol(not token)` on seeing a quote is modelled as the
`unexpectedQuote` error. -/
def scan_loop (src : List Nat) (token : Token) (ptr : Nat) :
    Except LexError (List Token × Nat) :=
  if h : ptr < src.length then
    if isWC (src.getD ptr 0) then
      scan_loop src (token ++ [src.getD ptr 0]) (ptr + 1)
    else if src.getD ptr 0 == OPEN_SQUARE then
      if hfind : (findFrom src CLOSE_SQUARE (ptr + 1)).isSome then
        scan_loop src
          (token ++ [src.getD ptr 0] ++
            byteSlice src (ptr + 1) ((findFrom src CLOSE_SQUARE (ptr + 1)).get hfind + 1))
          ((findFrom src CLOSE_SQUARE (ptr + 1)).get hfind + 1)
      else .error .unterminatedBracket
    else if isWS (src.getD ptr 0) then
      .ok ([token], ptr + 1)
    else if src.getD ptr 0 == DOUBLE_QUOTE then
      if token ≠ [] then .error .unexpectedQuote
      else
        match quote_loop src (ptr + 1) (token ++ [src.getD ptr 0]) with
        | .error e => .error e
        | .ok (tok, ptr2) => .ok ([tok], ptr2)
    else
      .ok ((if token ≠ [] then [token] else []) ++ [[src.getD ptr 0]], ptr + 1)
  else
    .ok (if token ≠ [] then [token] else [], ptr)
termination_by src.length - ptr
decreasing_by
  · omega
  · have := findFrom_some (Option.some_get hfind).symm
    omega

theorem quote_loop_progress2 {src : List Nat} {ptr : Nat} {token tok : Token}
    {ptr' : Nat} (h : quote_loop src ptr token = .ok (tok, ptr')) :
    ptr < ptr' := by
  induction ptr, token using quote_loop.induct src with
  | case1 p token hlt hb h2 hesc ih =>
    rw [quote_loop, dif_pos hlt] at h
    simp only [hb, h2, hesc, if_true, dif_pos, ite_true, dite_true] at h
    have := ih h
    omega
  | case2 p token hlt hb h2 hesc ih =>
    rw [quote_loop, dif_pos hlt] at h
    simp only [hb, hesc, if_true, dif_pos h2, ite_true, if_false,
      Bool.false_eq_true, ite_false] at h
    have := ih h
    omega
  | case3 p token hlt hb h2 =>
    rw [quote_loop, dif_pos hlt] at h
    simp only [hb, dif_neg h2, ite_true] at h
    cases h
  | case4 p token hlt hb hq =>
    rw [quote_loop, dif_pos hlt] at h
    simp only [hb, hq, Bool.false_eq_true, ite_false, ite_true] at h
    cases h
    omega
  | case5 p token hlt hb hq ih =>
    rw [quote_loop, dif_pos hlt] at h
    simp only [hb, hq, Bool.false_eq_true, ite_false] at h
    have := ih h
    omega
  | case6 p token hge =>
    rw [quote_loop, dif_neg hge] at h
    cases h

theorem scan_loop_wc2 {src : List Nat} {token : Token} {ptr : Nat}
    (hlt : ptr < src.length) (hwc : isWC (src.getD ptr 0) = true) :
    scan_loop src token ptr =
      scan_loop src (token ++ [src.getD ptr 0]) (ptr + 1) := by
  rw [scan_loop, dif_pos hlt, if_pos hwc]

theorem scan_loop_sq_none2 {src : List Nat} {token : Token} {ptr : Nat}
    (hlt : ptr < src.length) (hwc : ¬ isWC (src.getD ptr 0) = true)
    (hsq : (src.getD ptr 0 == OPEN_SQUARE) = true)
    (hfind : findFrom src CLOSE_SQUARE (ptr + 1) = none) :
    scan_loop src token ptr = .error .unterminatedBracket := by
  rw [scan_loop, dif_pos hlt, if_neg hwc, if_pos hsq, dif_neg]
  simp [hfind]

theorem scan_loop_sq_some2 {src : List Nat} {token : Token} {ptr ind : Nat}
    (hlt : ptr < src.length) (hwc : ¬ isWC (src.getD ptr 0) = true)
    (hsq : (src.getD ptr 0 == OPEN_SQUARE) = true)
    (hfind : findFrom src CLOSE_SQUARE (ptr + 1) = some ind) :
    scan_loop src token ptr =
      scan_loop src (token ++ [src.getD ptr 0] ++ byteSlice src (ptr + 1) (ind + 1))
        (ind + 1) := by
  rw [scan_loop, dif_pos hlt, if_neg hwc, if_pos hsq,
    dif_pos (by simp [hfind])]
  simp only [hfind, Option.get_some]

theorem scan_loop_ws2 {src : List Nat} {token : Token} {ptr : Nat}
    (hlt : ptr < src.length) (hwc : ¬ isWC (src.getD ptr 0) = true)
    (hsq : ¬ (src.getD ptr 0 == OPEN_SQUARE) = true)
    (hws : isWS (src.getD ptr 0) = true) :
    scan_loop src token ptr = .ok ([token], ptr + 1) := by
  rw [scan_loop, dif_pos hlt, if_neg hwc, if_neg hsq, if_pos hws]

theorem scan_loop_quote_mid2 {src : List Nat} {token : Token} {ptr : Nat}
    (hlt : ptr < src.length) (hwc : ¬ isWC (src.getD ptr 0) = true)
    (hsq : ¬ (src.getD ptr 0 == OPEN_SQUARE) = true)
    (hws : ¬ isWS (src.getD ptr 0) = true)
    (hq : (src.getD ptr 0 == DOUBLE_QUOTE) = true) (hne : token ≠ []) :
    scan_loop src token ptr = .error .unexpectedQuote := by
  rw [scan_loop, dif_pos hlt, if_neg hwc, if_neg hsq, if_neg hws, if_pos hq,
    if_pos hne]

theorem scan_loop_quote2 {src : List Nat} {token : Token} {ptr : Nat}
    (hlt : ptr < src.length) (hwc : ¬ isWC (src.getD ptr 0) = true)
    (hsq : ¬ (src.getD ptr 0 == OPEN_SQUARE) = true)
    (hws : ¬ isWS (src.getD ptr 0) = true)
    (hq : (src.getD ptr 0 == DOUBLE_QUOTE) = true) (hemp : ¬ token ≠ []) :
    scan_loop src token ptr =
      match quote_loop src (ptr + 1) (token ++ [src.getD ptr 0]) with
      | .error e => .error e
      | .ok (tok, ptr2) => .ok ([tok], ptr2) := by
  rw [scan_loop, dif_pos hlt, if_neg hwc, if_neg hsq, if_neg hws, if_pos hq,
    if_neg hemp]

theorem scan_loop_punct2 {src : List Nat} {token : Token} {ptr : Nat}
    (hlt : ptr < src.length) (hwc : ¬ isWC (src.getD ptr 0) = true)
    (hsq : ¬ (src.getD ptr 0 == OPEN_SQUARE) = true)
    (hws : ¬ isWS (src.getD ptr 0) = true)
    (hq : ¬ (src.getD ptr 0 == DOUBLE_QUOTE) = true) :
    scan_loop src token ptr =
      .ok ((if token ≠ [] then [token] else []) ++ [[src.getD ptr 0]],
        ptr + 1) := by
  rw [scan_loop, dif_pos hlt, if_neg hwc, if_neg hsq, if_neg hws, if_neg hq]

theorem scan_loop_end2 {src : List Nat} {token : Token} {ptr : Nat}
    (hge : ¬ ptr < src.length) :
    scan_loop src token ptr =
      .ok (if token ≠ [] then [token] else [], ptr) := by
  rw [scan_loop, dif_neg hge]

theorem scan_loop_progress2 {src : List Nat} {token : Token} {ptr : Nat}
    {toks : List Token} {ptr' : Nat}
    (h : scan_loop src token ptr = .ok (toks, ptr')) :
    ptr < ptr' ∨ (ptr' = ptr ∧ src.length ≤ ptr) := by
  induction token, ptr using scan_loop.induct src with
  | case1 token p hlt hwc ih =>
    rw [scan_loop_wc2 hlt hwc] at h
    rcases ih h with h1 | h1 <;> omega
  | case2 token p hlt hwc hsq hfind ih =>
    have hsome : findFrom src CLOSE_SQUARE (p + 1) =
        some ((findFrom src CLOSE_SQUARE (p + 1)).get hfind) :=
      (Option.some_get hfind).symm
    rw [scan_loop_sq_some2 hlt hwc hsq hsome] at h
    have hge := (findFrom_some hsome).1
    rcases ih h with h1 | h1 <;> omega
  | case3 token p hlt hwc hsq hfind =>
    have hnone : findFrom src CLOSE_SQUARE (p + 1) = none :=
      Option.not_isSome_iff_eq_none.mp (by simpa using hfind)
    rw [scan_loop_sq_none2 hlt hwc hsq hnone] at h
    cases h
  | case4 token p hlt hwc hsq hws =>
    rw [scan_loop_ws2 hlt hwc hsq hws] at h
    cases h
    omega
  | case5 token p hlt hwc hsq hws hq hne =>
    rw [scan_loop_quote_mid2 hlt hwc hsq hws hq hne] at h
    cases h
  | case6 token p hlt hwc hsq hws hq hemp e hql =>
    rw [scan_loop_quote2 hlt hwc hsq hws hq hemp, hql] at h
    cases h
  | case7 token p hlt hwc hsq hws hq hemp tok ptr2 hql =>
    rw [scan_loop_quote2 hlt hwc hsq hws hq hemp, hql] at h
    cases h
    have := quote_loop_progress2 hql
    omega
  | case8 token p hlt hwc hsq hws hq =>
    rw [scan_loop_punct2 hlt hwc hsq hws hq] at h
    cases h
    omega
  | case9 token p hge =>
    rw [scan_loop_end2 hge] at h
    cases h
    omega

/-- Second implementation, outer loop of `read_token_stream`: each pass
starts with a fresh empty bytearray `token`. -/
def stream_loop (src : List Nat) (ptr : Nat) : Except LexError (List Token) :=
  if hp : ptr < src.length then
    match hs : scan_loop src [] (wsSkip src ptr) with
    | .error e => .error e
    | .ok (toks, ptr') =>
      match stream_loop src ptr' with
      | .error e => .error e
      | .ok rest => .ok (toks ++ rest)
  else .ok []
termination_by src.length - ptr
decreasing_by
  have h1 : ptr ≤ wsSkip src ptr := wsSkip_ge
  rcases scan_loop_progress2 hs with h2 | h2 <;> omega

/-- `read_token_stream(src_text)`, second implementation (the `Lexer`
wrapper's `bytes(tok)` conversion is the identity in this model). -/
def read_token_stream (src : List Nat) : Except LexError (List Token) :=
  stream_loop src 0

theorem stream_loop_end2 {src : List Nat} {ptr : Nat}
    (hge : ¬ ptr < src.length) : stream_loop src ptr = .ok [] := by
  rw [stream_loop.eq_def, dif_neg hge]

theorem stream_loop_step_err2 {src : List Nat} {ptr : Nat} {e : LexError}
    (hp : ptr < src.length)
    (hs : scan_loop src [] (wsSkip src ptr) = .error e) :
    stream_loop src ptr = .error e := by
  rw [stream_loop.eq_def, dif_pos hp]
  split
  · rename_i e' heq
    rw [hs] at heq
    cases heq
    rfl
  · rename_i toks ptr' heq
    rw [hs] at heq
    cases heq

theorem stream_loop_step_ok2 {src : List Nat} {ptr ptr' : Nat}
    {toks : List Token} (hp : ptr < src.length)
    (hs : scan_loop src [] (wsSkip src ptr) = .ok (toks, ptr')) :
    stream_loop src ptr =
      match stream_loop src ptr' with
      | .error e => .error e
      | .ok rest => .ok (toks ++ rest) := by
  rw [stream_loop.eq_def, dif_pos hp]
  split
  · rename_i e' heq
    rw [hs] at heq
    cases heq
  · rename_i toks2 ptr2 heq
    rw [hs] at heq
    cases heq
    rfl

end Impl2

/-- The two quoted-string sub-loops are textually the same loop. -/
theorem quote_loop_eq {src : List Nat} : ∀ ptr (token : Token),
    Impl2.quote_loop src ptr token = Impl1.quote_loop src ptr token := by
  intro ptr token
  induction ptr, token using Impl1.quote_loop.induct src with
  | case1 p token hlt hb h2 hesc ih =>
    rw [Impl1.quote_loop, Impl2.quote_loop, dif_pos hlt, dif_pos hlt]
    simp only [hb, hesc, dif_pos h2, ite_true, if_true]
    exact ih
  | case2 p token hlt hb h2 hesc ih =>
    rw [Impl1.quote_loop, Impl2.quote_loop, dif_pos hlt, dif_pos hlt]
    simp only [hb, hesc, dif_pos h2, ite_true, if_true, Bool.false_eq_true,
      ite_false]
    exact ih
  | case3 p token hlt hb h2 =>
    rw [Impl1.quote_loop, Impl2.quote_loop, dif_pos hlt, dif_pos hlt]
    simp only [hb, dif_neg h2, ite_true]
  | case4 p token hlt hb hq =>
    rw [Impl1.quote_loop, Impl2.quote_loop, dif_pos hlt, dif_pos hlt]
    simp only [hb, hq, Bool.false_eq_true, ite_false, ite_true]
  | case5 p token hlt hb hq ih =>
    rw [Impl1.quote_loop, Impl2.quote_loop, dif_pos hlt, dif_pos hlt]
    simp only [hb, hq, Bool.false_eq_true, ite_false]
    exact ih
  | case6 p token hge =>
    rw [Impl1.quote_loop, Impl2.quote_loop, dif_neg hge, dif_neg hge]

/-- Refinement between the scan loops: when implementation 2's bytearray holds
exactly the bytes of implementation 1's pending region `[fr, ptr)`, the two
scan loops agree exactly. -/
theorem scan_loop_eq {src : List Nat} {fr : Nat} : ∀ toIx ptr, toIx = ptr →
    fr ≤ ptr → ptr ≤ src.length →
    Impl2.scan_loop src (byteSlice src fr ptr) ptr =
      Impl1.scan_loop src fr toIx ptr := by
  intro toIx ptr
  induction toIx, ptr using Impl1.scan_loop.induct src fr with
  | case1 p q hlt hwc ih =>
    intro he h1 h2
    subst he
    rw [Impl1.scan_loop_wc hlt hwc, Impl2.scan_loop_wc2 hlt hwc,
      ← byteSlice_snoc h1 hlt]
    exact ih rfl (by omega) (by omega)
  | case2 p q hlt hwc hsq hfind ih =>
    intro he h1 h2
    subst he
    have hsome : findFrom src CLOSE_SQUARE (p + 1) =
        some ((findFrom src CLOSE_SQUARE (p + 1)).get hfind) :=
      (Option.some_get hfind).symm
    have hbnd := findFrom_some hsome
    rw [Impl1.scan_loop_sq_some hlt hwc hsq hsome,
      Impl2.scan_loop_sq_some2 hlt hwc hsq hsome,
      ← byteSlice_snoc h1 hlt,
      ← byteSlice_append (by omega) (by omega)]
    exact ih rfl (by omega) (by omega)
  | case3 p q hlt hwc hsq hfind =>
    intro he h1 h2
    subst he
    have hnone : findFrom src CLOSE_SQUARE (p + 1) = none :=
      Option.not_isSome_iff_eq_none.mp (by simpa using hfind)
    rw [Impl1.scan_loop_sq_none hlt hwc hsq hnone,
      Impl2.scan_loop_sq_none2 hlt hwc hsq hnone]
  | case4 p q hlt hwc hsq hws =>
    intro he h1 h2
    subst he
    rw [Impl1.scan_loop_ws hlt hwc hsq hws, Impl2.scan_loop_ws2 hlt hwc hsq hws]
  | case5 p q hlt hwc hsq hws hq hgt =>
    intro he h1 h2
    subst he
    rw [Impl1.scan_loop_quote_mid hlt hwc hsq hws hq hgt,
      Impl2.scan_loop_quote_mid2 hlt hwc hsq hws hq
        (byteSlice_ne_nil hgt h2)]
  | case6 p q hlt hwc hsq hws hq hle e hql =>
    intro he h1 h2
    subst he
    have hfr : fr = p := by omega
    subst hfr
    rw [Impl1.scan_loop_quote hlt hwc hsq hws hq hle,
      Impl2.scan_loop_quote2 hlt hwc hsq hws hq (by simp [byteSlice_self]),
      byteSlice_self]
    have hdq : src.getD fr 0 = DOUBLE_QUOTE := by simpa using hq
    rw [List.nil_append, hdq, quote_loop_eq]
  | case7 p q hlt hwc hsq hws hq hle tok ptr2 hql =>
    intro he h1 h2
    subst he
    have hfr : fr = p := by omega
    subst hfr
    rw [Impl1.scan_loop_quote hlt hwc hsq hws hq hle,
      Impl2.scan_loop_quote2 hlt hwc hsq hws hq (by simp [byteSlice_self]),
      byteSlice_self]
    have hdq : src.getD fr 0 = DOUBLE_QUOTE := by simpa using hq
    rw [List.nil_append, hdq, quote_loop_eq]
  | case8 p q hlt hwc hsq hws hq =>
    intro he h1 h2
    subst he
    rw [Impl1.scan_loop_punct hlt hwc hsq hws hq,
      Impl2.scan_loop_punct2 hlt hwc hsq hws hq]
    by_cases hgt : p > fr
    · rw [if_pos hgt, if_pos (byteSlice_ne_nil hgt h2)]
    · have hfr : fr = p := by omega
      subst hfr
      rw [if_neg hgt, if_neg (by simp [byteSlice_self])]
  | case9 p q hge =>
    intro he h1 h2
    subst he
    rw [Impl1.scan_loop_end hge, Impl2.scan_loop_end2 hge]
    by_cases hgt : p > fr
    · rw [if_pos hgt, if_pos (byteSlice_ne_nil hgt h2)]
    · have hfr : fr = p := by omega
      subst hfr
      rw [if_neg hgt, if_neg (by simp [byteSlice_self])]

/-- The two outer loops agree on every buffer and starting cursor. -/
theorem stream_loop_eq {src : List Nat} : ∀ ptr,
    Impl2.stream_loop src ptr = Impl1.stream_loop src ptr := by
  intro ptr
  induction ptr using Impl1.stream_loop.induct src with
  | case1 p hp e hs =>
    have hs2 : Impl2.scan_loop src [] (wsSkip src p) = .error e := by
      rw [← @byteSlice_self src (wsSkip src p),
        scan_loop_eq _ _ rfl le_rfl (wsSkip_le (le_of_lt hp))]
      exact hs
    rw [Impl2.stream_loop_step_err2 hp hs2, Impl1.stream_loop_step_err hp hs]
  | case2 p hp toks ptr1 hs e hrest ih =>
    have hs2 : Impl2.scan_loop src [] (wsSkip src p) = .ok (toks, ptr1) := by
      rw [← @byteSlice_self src (wsSkip src p),
        scan_loop_eq _ _ rfl le_rfl (wsSkip_le (le_of_lt hp))]
      exact hs
    rw [Impl2.stream_loop_step_ok2 hp hs2, Impl1.stream_loop_step_ok hp hs, ih]
  | case3 p hp toks ptr1 hs rest hrest ih =>
    have hs2 : Impl2.scan_loop src [] (wsSkip src p) = .ok (toks, ptr1) := by
      rw [← @byteSlice_self src (wsSkip src p),
        scan_loop_eq _ _ rfl le_rfl (wsSkip_le (le_of_lt hp))]
      exact hs
    rw [Impl2.stream_loop_step_ok2 hp hs2, Impl1.stream_loop_step_ok hp hs, ih]
  | case4 p hge =>
    rw [Impl2.stream_loop_end2 hge, Impl1.stream_loop_end hge]

/-- The two `read_token_stream` generators agree on every input buffer. -/
theorem read_token_stream_eq {src : List Nat} :
    Impl2.read_token_stream src = Impl1.read_token_stream src := by
  rw [Impl1.read_token_stream, Impl2.read_token_stream, stream_loop_eq]

/-- A response record as delivered by the transport: either a plain line, or
a pair of marker-terminated text and the literal payload (the
`isinstance(resp_record, tuple)` case). -/
inductive ResponseRecord where
  | plain (text : List Nat)
  | withLiteral (text : List Nat) (lit : List Nat)
deriving DecidableEq, Repr

/-- `LiteralHandlingIter` minus its back-pointer to the lexer: the text to
tokenize and the literal payload (`None` for a plain record). -/
structure LiteralHandlingIter where
  src_text : List Nat
  literal : Option (List Nat)
deriving DecidableEq, Repr

/-- `LiteralHandlingIter.__init__`.  For a tuple record,
`assert_imap_protocol(self.src_text.endswith(b'}'))` requires the text to end
with the byte `}` (125); its failure is the `malformedLiteralRecord` error.
`endswith` on Python bytes is `getLast? = some 125` here (false on empty). -/
def mkLiteralHandlingIter (r : ResponseRecord) :
    Except LexError LiteralHandlingIter :=
  match r with
  | .plain t => .ok ⟨t, none⟩
  | .withLiteral t lit =>
    if t.getLast? = some 125 then .ok ⟨t, some lit⟩
    else .error .malformedLiteralRecord

/-- `Lexer.__iter__` over a record sequence (first implementation), with each
yielded token paired with the literal of the record that was
`current_source` at the moment it was yielded — i.e. the value
`TokenSource.current_literal` returns if queried right after that token. -/
def lexer_run (records : List ResponseRecord) :
    Except LexError (List (Token × Option (List Nat))) :=
  match records with
  | [] => .ok []
  | r :: rs =>
    match mkLiteralHandlingIter r with
    | .error e => .error e
    | .ok lh =>
      match Impl1.read_token_stream lh.src_text with
      | .error e => .error e
      | .ok toks =>
        match lexer_run rs with
        | .error e => .error e
        | .ok rest => .ok (toks.map (fun t => (t, lh.literal)) ++ rest)

/-- The value of `lexer.current_source` after `n` successful `next()` calls,
starting from current source `cur` with `records` still unconsumed.
`Lexer.__init__` sets `current_source = None`, so the whole stream starts at
`current_source_after none records n`; a record becomes current when the
pull that yields its first token (or exhausts the stream past it) enters it,
and the last entered record stays current after exhaustion. -/
def current_source_after (cur : Option LiteralHandlingIter)
    (records : List ResponseRecord) (n : Nat) :
    Except LexError (Option LiteralHandlingIter) :=
  if n = 0 then .ok cur
  else
    match records with
    | [] => .ok cur
    | r :: rs =>
      match mkLiteralHandlingIter r with
      | .error e => .error e
      | .ok lh =>
        match Impl1.read_token_stream lh.src_text with
        | .error e => .error e
        | .ok toks =>
          if n ≤ toks.length then .ok (some lh)
          else current_source_after (some lh) rs (n - toks.length)

/-- `TokenSource.current_literal` (`self.lex.current_source.literal`) queried
after `n` tokens have been pulled: `.ok none` models the `AttributeError`
raised when `current_source` is still `None`; `.ok (some l)` is a successful
query returning `l`. -/
def current_literal_after (records : List ResponseRecord) (n : Nat) :
    Except LexError (Option (Option (List Nat))) :=
  match current_source_after none records n with
  | .error e => .error e
  | .ok cur => .ok (cur.map (fun lh => lh.literal))

/-- Once at least one pull has happened, the record that was current before a
non-empty record list is irrelevant. -/
theorem current_source_after_cur_irrel {r : ResponseRecord}
    {rs : List ResponseRecord} {n : Nat} (h : 1 ≤ n)
    (cur cur' : Option LiteralHandlingIter) :
    current_source_after cur (r :: rs) n =
      current_source_after cur' (r :: rs) n := by
  rw [current_source_after, current_source_after, if_neg (by omega),
    if_neg (by omega)]

/-- After `n ≥ 1` pulls on a non-empty record sequence whose whole run
succeeds, the `current_literal` query succeeds, and when the `n`-th token
exists it returns the literal of the record that produced that token. -/
theorem current_literal_after_spec : ∀ (records : List ResponseRecord)
    (out : List (Token × Option (List Nat))) (n : Nat),
    lexer_run records = .ok out → 1 ≤ n → records ≠ [] →
    ∃ l, current_literal_after records n = .ok (some l) ∧
      (∀ t lit, out[n - 1]? = some (t, lit) → l = lit) := by
  intro records
  induction records with
  | nil =>
    intro out n hrun hn hne
    exact absurd rfl hne
  | cons r rs ih =>
    intro out n hrun hn hne
    rw [lexer_run] at hrun
    split at hrun
    · cases hrun
    rename_i lh hmk
    split at hrun
    · cases hrun
    rename_i toks hlex
    split at hrun
    · cases hrun
    rename_i rest hrest
    cases hrun
    by_cases hcase : n ≤ toks.length
    · refine ⟨lh.literal, ?_, ?_⟩
      · rw [current_literal_after, current_source_after, if_neg (by omega)]
        simp [hmk, hlex, hcase]
      · intro t lit hget
        rw [List.getElem?_append, if_pos (by simp; omega),
          List.getElem?_map] at hget
        rcases htoks : toks[n - 1]? with _ | tk <;> rw [htoks] at hget
        · cases hget
        · simp at hget
          exact hget.2
    · rcases hrs : rs with _ | ⟨r', rs'⟩
      · subst hrs
        rw [lexer_run] at hrest
        cases hrest
        refine ⟨lh.literal, ?_, ?_⟩
        · rw [current_literal_after, current_source_after, if_neg (by omega)]
          simp only [hmk, hlex]
          rw [if_neg hcase, current_source_after, if_neg (by omega)]
          rfl
        · intro t lit hget
          rw [List.getElem?_append_right (by simp; omega)] at hget
          simp at hget
      · subst hrs
        rcases ih rest (n - toks.length) hrest (by omega) (by simp) with
          ⟨l, hl1, hl2⟩
        refine ⟨l, ?_, ?_⟩
        · rw [current_literal_after, current_source_after, if_neg (by omega)]
          simp only [hmk, hlex]
          rw [if_neg hcase]
          rw [current_source_after_cur_irrel (by omega) (some lh) none]
          rw [current_literal_after] at hl1
          rcases hcs : current_source_after none (r' :: rs')
              (n - toks.length) with e | cur
          · simp only [hcs] at hl1
            cases hl1
          · simp only [hcs] at hl1 ⊢
            exact hl1
        · intro t lit hget
          rw [List.getElem?_append_right (by simp; omega)] at hget
          apply hl2 t lit
          rw [← hget]
          congr 1
          simp
          omega

/-!
## Claim theorems
-/

/-- C1 (counterexample): the claim "re-tokenizing the byte content of any
produced atom or quoted-string token yields exactly one identical token"
fails: the input `"a\x5c"b"` produces the single quoted-string token
`"a"b"`, and re-tokenizing that token's bytes raises `UnexpectedQuote`
instead of yielding the token back. -/
theorem c1_counterexample :
    Impl1.read_token_stream [34, 97, 92, 34, 98, 34] =
        .ok [[34, 97, 34, 98, 34]] ∧
      Impl1.read_token_stream [34, 97, 34, 98, 34] =
        .error .unexpectedQuote := by
  constructor <;>
    simp [Impl1.read_token_stream_eval, Impl1.stream_fuel, wsSkip,
      Impl1.scan_loop, Impl1.quote_loop, findFrom, byteSlice, isWC, isWS,
      isSpecial, OPEN_SQUARE, CLOSE_SQUARE, DOUBLE_QUOTE, BACKSLASH]

/-- C1 (amended): re-tokenizing a produced token yields exactly that token
back when the token is an atom (non-empty, all word-characters), or a
quoted-string token whose body needed no unescaping (no `"` byte, no doubled
backslash, no trailing backslash); quoted tokens whose body contains a `"`
or collapses under escaping do not round-trip (see the counterexample). -/
theorem c1_retokenize_amended (src : List Nat) (toks : List Token)
    (t : List Nat) (hrun : Impl1.read_token_stream src = .ok toks)
    (hmem : t ∈ toks)
    (ht : (t ≠ [] ∧ t.all isWC = true) ∨
      (∃ body, t = DOUBLE_QUOTE :: body ++ [DOUBLE_QUOTE] ∧
        cleanBody body = true)) :
    Impl1.read_token_stream t = .ok [t] := by
  rcases ht with ⟨hne, hall⟩ | ⟨body, rfl, hclean⟩
  · exact Impl1.read_token_stream_atom hne hall
  · exact Impl1.read_token_stream_quoted hclean

/-- Witness for C1 (amended) at the quoted token `"a"` produced from the
input `"a"`. -/
theorem c1_retokenize_amended_witness :
    Impl1.read_token_stream [34, 97, 34] = .ok [[34, 97, 34]] :=
  c1_retokenize_amended [34, 97, 34] [[34, 97, 34]] [34, 97, 34]
    (by simp [Impl1.read_token_stream_eval, Impl1.stream_fuel, wsSkip,
      Impl1.scan_loop, Impl1.quote_loop, findFrom, byteSlice, isWC, isWS,
      isSpecial, OPEN_SQUARE, CLOSE_SQUARE, DOUBLE_QUOTE, BACKSLASH])
    (by simp) (Or.inr ⟨[97], rfl, by decide⟩)

/-- C2: on record 1 = text `a1 FETCH {5}` with literal `hello` and record 2 =
plain `b2 OK`, the lexer yields exactly `a1`, `FETCH`, `{5}`, `b2`, `OK` in
order, each paired with its record's literal; `current_literal` right after
the third token (`{5}`) returns `hello`, and right after the fourth token
(`b2`) returns `None`. -/
theorem c2_literal_association :
    lexer_run [ResponseRecord.withLiteral
        [97, 49, 32, 70, 69, 84, 67, 72, 32, 123, 53, 125]
        [104, 101, 108, 108, 111],
      ResponseRecord.plain [98, 50, 32, 79, 75]] =
      .ok [([97, 49], some [104, 101, 108, 108, 111]),
        ([70, 69, 84, 67, 72], some [104, 101, 108, 108, 111]),
        ([123, 53, 125], some [104, 101, 108, 108, 111]),
        ([98, 50], none), ([79, 75], none)] ∧
    current_literal_after [ResponseRecord.withLiteral
        [97, 49, 32, 70, 69, 84, 67, 72, 32, 123, 53, 125]
        [104, 101, 108, 108, 111],
      ResponseRecord.plain [98, 50, 32, 79, 75]] 3 =
      .ok (some (some [104, 101, 108, 108, 111])) ∧
    current_literal_after [ResponseRecord.withLiteral
        [97, 49, 32, 70, 69, 84, 67, 72, 32, 123, 53, 125]
        [104, 101, 108, 108, 111],
      ResponseRecord.plain [98, 50, 32, 79, 75]] 4 = .ok (some none) := by
  refine ⟨?_, ?_, ?_⟩ <;>
    simp [lexer_run, current_literal_after, current_source_after,
      mkLiteralHandlingIter, Impl1.read_token_stream_eval, Impl1.stream_fuel,
      wsSkip, Impl1.scan_loop, Impl1.quote_loop, findFrom, byteSlice, isWC,
      isWS, isSpecial, OPEN_SQUARE, CLOSE_SQUARE, DOUBLE_QUOTE, BACKSLASH]

/-- C3 (counterexample): the claim "querying current_literal at any point —
including before the first token has been pulled — returns a value and never
fails" is false: before the first pull `current_source` is still `None`, so
`current_literal` raises `AttributeError` (modelled as the query result
`.ok none`) on this concrete input. -/
theorem c3_counterexample :
    current_literal_after [ResponseRecord.plain [97]] 0 = .ok none := by
  simp [current_literal_after, current_source_after]

/-- C3 (amended): after `n ≥ 1` tokens have been pulled from a non-empty
record sequence whose run succeeds, the `current_literal` query succeeds,
and whenever the `n`-th token exists it returns the literal of the record
that produced that token (possibly `None`); before the first pull — or on an
empty record sequence — the query fails with `AttributeError` since no
record is current. -/
theorem c3_current_literal_amended (records : List ResponseRecord)
    (out : List (Token × Option (List Nat))) (n : Nat)
    (hrun : lexer_run records = .ok out) (hn : 1 ≤ n)
    (hne : records ≠ []) :
    ∃ l, current_literal_after records n = .ok (some l) ∧
      (∀ t lit, out[n - 1]? = some (t, lit) → l = lit) :=
  current_literal_after_spec records out n hrun hn hne

/-- Witness for C3 (amended) on a single plain record after one pull. -/
theorem c3_current_literal_amended_witness :
    ∃ l, current_literal_after [ResponseRecord.plain [97]] 1 =
        .ok (some l) ∧
      (∀ t lit, [([97], (none : Option (List Nat)))][1 - 1]? = some (t, lit) →
        l = lit) :=
  c3_current_literal_amended [ResponseRecord.plain [97]] [([97], none)] 1
    (by simp [lexer_run, mkLiteralHandlingIter, Impl1.read_token_stream_eval,
      Impl1.stream_fuel, wsSkip, Impl1.scan_loop, Impl1.quote_loop, findFrom,
      byteSlice, isWC, isWS, isSpecial, OPEN_SQUARE, CLOSE_SQUARE,
      DOUBLE_QUOTE, BACKSLASH])
    (by omega) (by simp)

/-- C4: on every input buffer the two `read_token_stream` implementations
(with their `Lexer` wrappers' `bytes` conversion) yield the same token
sequence and raise an error if and only if the other does — their modelled
results are equal outright. -/
theorem c4_implementations_agree : ∀ src : List Nat,
    Impl2.read_token_stream src = Impl1.read_token_stream src :=
  fun _ => read_token_stream_eq

/-- C5: in quote mode a backslash followed by `\x5c` or `"` contributes only
the escaped byte; a backslash followed by any other byte is kept verbatim
without special treatment of the next byte; and delimiters are kept: the
input `"ab\x5c"cd\x5c\x5cef"` yields exactly the token `"ab"cd\x5cef"` under
both implementations. -/
theorem c5_quoted_string_escapes :
    (∀ (src : List Nat) (ptr : Nat) (token : Token), ptr + 1 < src.length →
      src.getD ptr 0 = BACKSLASH →
      (src.getD (ptr + 1) 0 = BACKSLASH ∨
        src.getD (ptr + 1) 0 = DOUBLE_QUOTE) →
      Impl1.quote_loop src ptr token =
        Impl1.quote_loop src (ptr + 2) (token ++ [src.getD (ptr + 1) 0])) ∧
    (∀ (src : List Nat) (ptr : Nat) (token : Token), ptr + 1 < src.length →
      src.getD ptr 0 = BACKSLASH → src.getD (ptr + 1) 0 ≠ BACKSLASH →
      src.getD (ptr + 1) 0 ≠ DOUBLE_QUOTE →
      Impl1.quote_loop src ptr token =
        Impl1.quote_loop src (ptr + 1) (token ++ [src.getD ptr 0])) ∧
    Impl1.read_token_stream
        [34, 97, 98, 92, 34, 99, 100, 92, 92, 101, 102, 34] =
      .ok [[34, 97, 98, 34, 99, 100, 92, 101, 102, 34]] ∧
    Impl2.read_token_stream
        [34, 97, 98, 92, 34, 99, 100, 92, 92, 101, 102, 34] =
      .ok [[34, 97, 98, 34, 99, 100, 92, 101, 102, 34]] := by
  refine ⟨fun src ptr token h2 hb hesc => Impl1.quote_loop_esc h2 hb hesc,
    fun src ptr token h2 hb hn1 hn2 =>
      Impl1.quote_loop_bs_plain h2 hb hn1 hn2, ?_, ?_⟩
  · simp [Impl1.read_token_stream_eval, Impl1.stream_fuel, wsSkip,
      Impl1.scan_loop, Impl1.quote_loop, findFrom, byteSlice, isWC, isWS,
      isSpecial, OPEN_SQUARE, CLOSE_SQUARE, DOUBLE_QUOTE, BACKSLASH]
  · rw [read_token_stream_eq]
    simp [Impl1.read_token_stream_eval, Impl1.stream_fuel, wsSkip,
      Impl1.scan_loop, Impl1.quote_loop, findFrom, byteSlice, isWC, isWS,
      isSpecial, OPEN_SQUARE, CLOSE_SQUARE, DOUBLE_QUOTE, BACKSLASH]

/-- Witness for C5: one recognized escape step and one verbatim-backslash
step at concrete inputs. -/
theorem c5_quoted_string_escapes_witness :
    Impl1.quote_loop [92, 34, 34] 0 [] =
        Impl1.quote_loop [92, 34, 34] 2 [34] ∧
      Impl1.quote_loop [92, 97, 34] 0 [] =
        Impl1.quote_loop [92, 97, 34] 1 [92] :=
  ⟨c5_quoted_string_escapes.1 [92, 34, 34] 0 [] (by decide) (by decide)
      (Or.inr (by decide)),
    c5_quoted_string_escapes.2.1 [92, 97, 34] 0 [] (by decide) (by decide)
      (by decide) (by decide)⟩

/-- C6: after quote mode is entered, tokenization fails with
`UnterminatedQuote` if and only if the remaining buffer holds no unescaped
closing `"` (in either implementation); in particular a backslash as the
final buffer byte inside a quoted string is rejected, as on the concrete
input `"a\x5c`. -/
theorem c6_unterminated_quote_iff :
    (∀ (src : List Nat) (ptr : Nat) (token : Token),
      (Impl1.quote_loop src ptr token = .error .unterminatedQuote ↔
        hasClose (src.drop ptr) = false)) ∧
    (∀ (src : List Nat) (ptr : Nat) (token : Token),
      (Impl2.quote_loop src ptr token = .error .unterminatedQuote ↔
        hasClose (src.drop ptr) = false)) ∧
    Impl1.read_token_stream [34, 97, 92] = .error .unterminatedQuote := by
  refine ⟨fun src ptr token => Impl1.quote_loop_error_iff ptr token,
    fun src ptr token => ?_, ?_⟩
  · rw [quote_loop_eq]
    exact Impl1.quote_loop_error_iff ptr token
  · simp [Impl1.read_token_stream_eval, Impl1.stream_fuel, wsSkip,
      Impl1.scan_loop, Impl1.quote_loop, findFrom, byteSlice, isWC, isWS,
      isSpecial, OPEN_SQUARE, CLOSE_SQUARE, DOUBLE_QUOTE, BACKSLASH]

/-- Witness for C6: quote mode entered with the buffer exhausted fails with
`UnterminatedQuote`. -/
theorem c6_unterminated_quote_iff_witness :
    Impl1.quote_loop [34, 97] 2 [34] = .error .unterminatedQuote :=
  (c6_unterminated_quote_iff.1 [34, 97] 2 [34]).mpr (by decide)

/-- C7: on `[` the pending region is extended through the first `]` at or
after the cursor, inclusive (that index is the least one holding `]`, with
the contents copied verbatim and not re-tokenized); with no `]` remaining,
tokenization fails with `UnterminatedBracket`; concretely `[1 2 3]` yields
the single token `[1 2 3]` and `[abc` fails. -/
theorem c7_bracket_scan :
    (∀ (src : List Nat) (fr toIx ptr ind : Nat), ptr < src.length →
      src.getD ptr 0 = OPEN_SQUARE →
      findFrom src CLOSE_SQUARE (ptr + 1) = some ind →
      (Impl1.scan_loop src fr toIx ptr =
        Impl1.scan_loop src fr (ind + 1) (ind + 1)) ∧
      ptr + 1 ≤ ind ∧ ind < src.length ∧
      src.getD ind 0 = CLOSE_SQUARE ∧
      (∀ k, ptr + 1 ≤ k → k < ind → src.getD k 0 ≠ CLOSE_SQUARE)) ∧
    (∀ (src : List Nat) (fr toIx ptr : Nat), ptr < src.length →
      src.getD ptr 0 = OPEN_SQUARE →
      findFrom src CLOSE_SQUARE (ptr + 1) = none →
      Impl1.scan_loop src fr toIx ptr = .error .unterminatedBracket) ∧
    Impl1.read_token_stream [91, 49, 32, 50, 32, 51, 93] =
      .ok [[91, 49, 32, 50, 32, 51, 93]] ∧
    Impl1.read_token_stream [91, 97, 98, 99] = .error .unterminatedBracket
    := by
  refine ⟨?_, ?_, ?_, ?_⟩
  · intro src fr toIx ptr ind hlt hsq hfind
    have hwc : ¬ isWC (src.getD ptr 0) = true := by
      rw [hsq]
      decide
    have hbnd := findFrom_some hfind
    exact ⟨Impl1.scan_loop_sq_some hlt hwc (beq_true_of_eq hsq) hfind,
      hbnd.1, hbnd.2.1, hbnd.2.2, findFrom_some_min hfind⟩
  · intro src fr toIx ptr hlt hsq hfind
    have hwc : ¬ isWC (src.getD ptr 0) = true := by
      rw [hsq]
      decide
    exact Impl1.scan_loop_sq_none hlt hwc (beq_true_of_eq hsq) hfind
  · simp [Impl1.read_token_stream_eval, Impl1.stream_fuel, wsSkip,
      Impl1.scan_loop, Impl1.quote_loop, findFrom, byteSlice, isWC, isWS,
      isSpecial, OPEN_SQUARE, CLOSE_SQUARE, DOUBLE_QUOTE, BACKSLASH]
  · simp [Impl1.read_token_stream_eval, Impl1.stream_fuel, wsSkip,
      Impl1.scan_loop, Impl1.quote_loop, findFrom, byteSlice, isWC, isWS,
      isSpecial, OPEN_SQUARE, CLOSE_SQUARE, DOUBLE_QUOTE, BACKSLASH]

/-- Witness for C7 at the two-byte input `[]`. -/
theorem c7_bracket_scan_witness :
    (Impl1.scan_loop [91, 93] 0 0 0 = Impl1.scan_loop [91, 93] 0 2 2) ∧
      0 + 1 ≤ 1 ∧ 1 < [91, 93].length ∧
      [91, 93].getD 1 0 = CLOSE_SQUARE ∧
      (∀ k, 0 + 1 ≤ k → k < 1 → [91, 93].getD k 0 ≠ CLOSE_SQUARE) :=
  c7_bracket_scan.1 [91, 93] 0 0 0 1 (by decide) (by decide)
    (by simp [findFrom, CLOSE_SQUARE])

/-- C8: a `"` met while the pending token region is non-empty fails with
`UnexpectedQuote`; a `"` at a token boundary never produces that error;
concretely `x"y"` fails with `UnexpectedQuote`. -/
theorem c8_unexpected_quote :
    (∀ (src : List Nat) (fr toIx ptr : Nat), ptr < src.length →
      src.getD ptr 0 = DOUBLE_QUOTE → toIx > fr →
      Impl1.scan_loop src fr toIx ptr = .error .unexpectedQuote) ∧
    (∀ (src : List Nat) (fr toIx ptr : Nat), ptr < src.length →
      src.getD ptr 0 = DOUBLE_QUOTE → ¬ toIx > fr →
      Impl1.scan_loop src fr toIx ptr ≠ .error .unexpectedQuote) ∧
    Impl1.read_token_stream [120, 34, 121, 34] = .error .unexpectedQuote
    := by
  refine ⟨?_, ?_, ?_⟩
  · intro src fr toIx ptr hlt hq hgt
    exact Impl1.scan_loop_quote_mid hlt
      (by rw [hq]; decide)
      (beq_not_true_of_ne (by rw [hq]; decide))
      (by rw [hq]; decide)
      (beq_true_of_eq hq) hgt
  · intro src fr toIx ptr hlt hq hle
    rw [Impl1.scan_loop_quote hlt
      (by rw [hq]; decide)
      (beq_not_true_of_ne (by rw [hq]; decide))
      (by rw [hq]; decide)
      (beq_true_of_eq hq) hle]
    rcases Impl1.quote_loop_total (ptr + 1) [DOUBLE_QUOTE] with
      ⟨tok, ptr2, hok⟩ | herr
    · rw [hok]
      simp
    · rw [herr]
      simp
  · simp [Impl1.read_token_stream_eval, Impl1.stream_fuel, wsSkip,
      Impl1.scan_loop, Impl1.quote_loop, findFrom, byteSlice, isWC, isWS,
      isSpecial, OPEN_SQUARE, CLOSE_SQUARE, DOUBLE_QUOTE, BACKSLASH]

/-- Witness for C8 at concrete scan states on the one-byte buffer `"`. -/
theorem c8_unexpected_quote_witness :
    Impl1.scan_loop [34] 0 1 0 = .error .unexpectedQuote ∧
      Impl1.scan_loop [34] 0 0 0 ≠ .error .unexpectedQuote :=
  ⟨c8_unexpected_quote.1 [34] 0 1 0 (by decide) (by decide) (by decide),
    c8_unexpected_quote.2.1 [34] 0 0 0 (by decide) (by decide) (by decide)⟩

/-- C9: constructing `LiteralHandlingIter` from a tuple record whose text
does not end with `}` fails with `MalformedLiteralRecord`; from a tuple
record whose text ends with `}` it succeeds and exposes the literal; from a
plain record it succeeds and exposes no literal. -/
theorem c9_literal_record_construction :
    (∀ t lit : List Nat, t.getLast? ≠ some 125 →
      mkLiteralHandlingIter (.withLiteral t lit) =
        .error .malformedLiteralRecord) ∧
    (∀ t lit : List Nat, t.getLast? = some 125 →
      mkLiteralHandlingIter (.withLiteral t lit) = .ok ⟨t, some lit⟩) ∧
    (∀ t : List Nat, mkLiteralHandlingIter (.plain t) = .ok ⟨t, none⟩) := by
  refine ⟨?_, ?_, fun t => rfl⟩
  · intro t lit h
    rw [mkLiteralHandlingIter, if_neg h]
  · intro t lit h
    rw [mkLiteralHandlingIter, if_pos h]

/-- Witness for C9 at concrete records. -/
theorem c9_literal_record_construction_witness :
    mkLiteralHandlingIter (.withLiteral [97] []) =
        .error .malformedLiteralRecord ∧
      mkLiteralHandlingIter (.withLiteral [123, 48, 125] [104]) =
        .ok ⟨[123, 48, 125], some [104]⟩ :=
  ⟨c9_literal_record_construction.1 [97] [] (by decide),
    c9_literal_record_construction.2.1 [123, 48, 125] [104] (by decide)⟩

/-- C10: every token yielded by `read_token_stream` — in either
implementation — is non-empty. -/
theorem c10_tokens_nonempty : ∀ (src : List Nat) (toks : List Token),
    (Impl1.read_token_stream src = .ok toks ∨
      Impl2.read_token_stream src = .ok toks) →
    ∀ t ∈ toks, t ≠ [] := by
  intro src toks h
  rcases h with h | h
  · exact Impl1.stream_tokens_ne_nil 0 (by omega) toks h
  · rw [read_token_stream_eq] at h
    exact Impl1.stream_tokens_ne_nil 0 (by omega) toks h

/-- Witness for C10 on the input `(`. -/
theorem c10_tokens_nonempty_witness : [40] ≠ ([] : List Nat) :=
  c10_tokens_nonempty [40] [[40]]
    (Or.inl (by simp [Impl1.read_token_stream_eval, Impl1.stream_fuel,
      wsSkip, Impl1.scan_loop, Impl1.quote_loop, findFrom, byteSlice, isWC,
      isWS, isSpecial, OPEN_SQUARE, CLOSE_SQUARE, DOUBLE_QUOTE, BACKSLASH]))
    [40] (by simp)

end ImapLexer